import Mathlib

/-!
Verification of the qwen-ocr orchestration core against its specification.

The definitions below are a shallow embedding of the Python sources:
`src/services/ocr.py`, `src/services/auth.py`,
`src/services/config_manager.py` and `src/routers/pdf_ocr.py`.
Strings are modelled as `List Char` where character-level scanning matters
and as `String` elsewhere; network and clock effects are passed in as
explicit environment records.
-/

namespace QwenOcr

/-! ## Text post-processing (`_recognize_image`, src/services/ocr.py lines 567-574) -/

/-- ASCII alphanumeric test, mirroring the regex `[A-Za-z0-9]` used by
`re.fullmatch(r"[A-Za-z0-9]+", full_response)`. -/
def isAlnumAscii (c : Char) : Bool :=
  ('A' ≤ c ∧ c ≤ 'Z') ∨ ('a' ≤ c ∧ c ≤ 'z') ∨ ('0' ≤ c ∧ c ≤ '9')

/-- ASCII uppercase map.  In the captcha branch the input is all ASCII
alphanumeric, where Python `str.upper` acts exactly like this. -/
def upperAscii (c : Char) : Char :=
  if 'a' ≤ c ∧ c ≤ 'z' then Char.ofNat (c.toNat - 32) else c

/-- One pass of Python `str.replace(a ++ b, repl)` for a two-character
pattern: left-to-right, non-overlapping.  Used for
`full_response.replace("\\（", "(").replace("\\）", ")")`. -/
def replacePair (a b repl : Char) : List Char → List Char
  | [] => []
  | [c] => [c]
  | c :: d :: cs =>
    if c = a ∧ d = b then repl :: replacePair a b repl cs
    else c :: replacePair a b repl (d :: cs)

/-- Length of the leading run of newline characters, with the remainder. -/
def nlRun : List Char → Nat × List Char
  | [] => (0, [])
  | c :: cs =>
    if c = '\n' then
      let (n, r) := nlRun cs
      (n + 1, r)
    else (0, c :: cs)

theorem nlRun_length (l : List Char) : (nlRun l).2.length + (nlRun l).1 = l.length := by
  induction l with
  | nil => simp [nlRun]
  | cons c cs ih =>
    by_cases h : c = '\n'
    · simp [nlRun, h] at ih ⊢
      omega
    · simp [nlRun, h]

theorem nlRun_eq (l : List Char) :
    List.replicate (nlRun l).1 '\n' ++ (nlRun l).2 = l := by
  induction l with
  | nil => simp [nlRun]
  | cons c cs ih =>
    by_cases h : c = '\n'
    · simp only [nlRun, h, if_true]
      cases heq : nlRun cs with
      | mk n r =>
        simp only [heq] at ih
        simp [List.replicate_succ, ih, h]
    · simp [nlRun, h]

theorem nlRun_head (l : List Char) :
    (nlRun l).2 = [] ∨ (nlRun l).2.head? ≠ some '\n' := by
  induction l with
  | nil => simp [nlRun]
  | cons c cs ih =>
    by_cases h : c = '\n'
    · simpa [nlRun, h] using ih
    · simp [nlRun, h]

/-- Emit a pending run of `n` newlines: a run of three or more becomes
exactly two, shorter runs are kept. -/
def emitNlRun (n : Nat) : List Char :=
  if 3 ≤ n then ['\n', '\n'] else List.replicate n '\n'

/-- Scanner for `re.sub(r'\n{3,}', "\n\n", s)`, carrying the count of
pending consecutive newlines. -/
def collapseNlGo : Nat → List Char → List Char
  | n, [] => emitNlRun n
  | n, c :: cs =>
    if c = '\n' then collapseNlGo (n + 1) cs
    else emitNlRun n ++ c :: collapseNlGo 0 cs

/-- `re.sub(r'\n{3,}', "\n\n", s)`: every maximal run of three or more
newlines is replaced by exactly two; shorter runs are kept. -/
def collapseNl (l : List Char) : List Char := collapseNlGo 0 l

/-- `re.sub(r'([^\n])\n([^\n])', r'\1\n\2', s)`: the replacement equals the
match, so this scan never changes the string (proved below). -/
def noopGuard : List Char → List Char
  | a :: b :: c :: rest =>
    if a ≠ '\n' ∧ b = '\n' ∧ c ≠ '\n' then a :: b :: c :: noopGuard rest
    else a :: noopGuard (b :: c :: rest)
  | l => l

/-- Whitespace set stripped by Python `str.strip` (the ASCII part, which is
all the pipeline can produce from these transforms). -/
def isStripWs (c : Char) : Bool :=
  c = ' ' ∨ c = '\t' ∨ c = '\n' ∨ c = '\r' ∨ c = '\x0b' ∨ c = '\x0c'

/-- Python `str.strip()`: drop leading and trailing whitespace. -/
def pyStrip (l : List Char) : List Char :=
  ((l.dropWhile isStripWs).reverse.dropWhile isStripWs).reverse

/-- The text-mode normalization of `_recognize_image` (lines 570-573):
parenthesis substitution, newline-run collapsing, the no-op guard, trim. -/
def normalizeText (l : List Char) : List Char :=
  pyStrip (noopGuard (collapseNl (replacePair '\\' '）' ')' (replacePair '\\' '（' '(' l))))

/-- Recognition result record `{success, result, type}` (lines 568, 574). -/
structure RecogResult where
  success : Bool
  result : List Char
  rtype : String
  deriving Repr, DecidableEq

/-- Post-processing of the accumulated stream text (lines 567-574): captcha
classification or text normalization. -/
def postprocess (s : List Char) : RecogResult :=
  if s.length ≤ 10 ∧ s ≠ [] ∧ s.all isAlnumAscii then
    ⟨true, s.map upperAscii, "captcha"⟩
  else
    ⟨true, normalizeText s, "text"⟩

/-! ## Infrastructure for the normalization idempotence proof -/

/-- `true` iff the two-character pattern `a b` occurs somewhere in the list. -/
def containsPair (a b : Char) : List Char → Bool
  | c :: d :: t => if c = a ∧ d = b then true else containsPair a b (d :: t)
  | _ => false

/-- `true` iff three consecutive newline characters occur in the list. -/
def hasNl3 : List Char → Bool
  | a :: b :: c :: t =>
    if a = '\n' ∧ b = '\n' ∧ c = '\n' then true else hasNl3 (b :: c :: t)
  | _ => false

theorem containsPair_cons_ne {a b c : Char} (h : c ≠ a) (l : List Char) :
    containsPair a b (c :: l) = containsPair a b l := by
  cases l with
  | nil => simp [containsPair]
  | cons d t => simp [containsPair, h]

theorem containsPair_cons_false {a b c d : Char} {t : List Char}
    (h : containsPair a b (c :: d :: t) = false) :
    ¬(c = a ∧ d = b) ∧ containsPair a b (d :: t) = false := by
  by_cases hp : c = a ∧ d = b
  · simp [containsPair, hp] at h
  · simp only [containsPair, hp, if_false] at h
    exact ⟨hp, h⟩

theorem containsPair_tail {a b c : Char} {l : List Char}
    (h : containsPair a b (c :: l) = false) : containsPair a b l = false := by
  cases l with
  | nil => simp [containsPair]
  | cons d t => exact (containsPair_cons_false h).2

theorem containsPair_cons_of {a b c : Char} {l : List Char}
    (h : containsPair a b l = true) : containsPair a b (c :: l) = true := by
  cases l with
  | nil => simp [containsPair] at h
  | cons d t =>
    by_cases hp : c = a ∧ d = b
    · simp [containsPair, hp]
    · simpa [containsPair, hp] using h

theorem containsPair_cons_head {a b c : Char} {l : List Char}
    (h : ∀ x, l.head? = some x → ¬(c = a ∧ x = b)) :
    containsPair a b (c :: l) = containsPair a b l := by
  cases l with
  | nil => simp [containsPair]
  | cons d t => simp [containsPair, h d rfl]

theorem containsPair_append_left {a b : Char} {u : List Char} (v : List Char)
    (h : containsPair a b u = true) : containsPair a b (u ++ v) = true := by
  induction u with
  | nil => simp [containsPair] at h
  | cons c u2 ih =>
    cases u2 with
    | nil => simp [containsPair] at h
    | cons d t =>
      by_cases hp : c = a ∧ d = b
      · show containsPair a b (c :: d :: (t ++ v)) = true
        simp [containsPair, hp]
      · simp only [containsPair, hp, if_false] at h
        exact containsPair_cons_of (ih h)

theorem containsPair_append_right {a b : Char} (u : List Char) {v : List Char}
    (h : containsPair a b v = true) : containsPair a b (u ++ v) = true := by
  induction u with
  | nil => simpa using h
  | cons c u2 ih => exact containsPair_cons_of ih

theorem containsPair_infix {a b : Char} {p m s : List Char}
    (h : containsPair a b (p ++ m ++ s) = false) : containsPair a b m = false := by
  cases hm : containsPair a b m with
  | false => rfl
  | true =>
    have := containsPair_append_right p (containsPair_append_left s hm)
    rw [← List.append_assoc] at this
    rw [this] at h
    exact absurd h (by simp)

theorem hasNl3_cons_ne {c : Char} (hc : c ≠ '\n') (l : List Char) :
    hasNl3 (c :: l) = hasNl3 l := by
  cases l with
  | nil => simp [hasNl3]
  | cons d t =>
    cases t with
    | nil => simp [hasNl3]
    | cons e t2 => simp [hasNl3, hc]

theorem hasNl3_cons_of {c : Char} {l : List Char} (h : hasNl3 l = true) :
    hasNl3 (c :: l) = true := by
  cases l with
  | nil => simp [hasNl3] at h
  | cons d t =>
    cases t with
    | nil => simp [hasNl3] at h
    | cons e t2 =>
      by_cases hp : c = '\n' ∧ d = '\n' ∧ e = '\n'
      · simp [hasNl3, hp]
      · simpa [hasNl3, hp] using h

theorem hasNl3_tail {c : Char} {l : List Char} (h : hasNl3 (c :: l) = false) :
    hasNl3 l = false := by
  cases hl : hasNl3 l with
  | false => rfl
  | true => rw [hasNl3_cons_of hl] at h; exact absurd h (by simp)

theorem hasNl3_append_right (u : List Char) {v : List Char}
    (h : hasNl3 v = true) : hasNl3 (u ++ v) = true := by
  induction u with
  | nil => simpa using h
  | cons c u2 ih => exact hasNl3_cons_of ih

theorem hasNl3_append_left {u : List Char} (v : List Char)
    (h : hasNl3 u = true) : hasNl3 (u ++ v) = true := by
  induction u with
  | nil => simp [hasNl3] at h
  | cons c u2 ih =>
    cases u2 with
    | nil => simp [hasNl3] at h
    | cons d t =>
      cases t with
      | nil => simp [hasNl3] at h
      | cons e t2 =>
        by_cases hp : c = '\n' ∧ d = '\n' ∧ e = '\n'
        · show hasNl3 (c :: d :: e :: (t2 ++ v)) = true
          simp [hasNl3, hp]
        · simp only [hasNl3, hp, if_false] at h
          exact hasNl3_cons_of (ih h)

theorem hasNl3_infix {p m s : List Char}
    (h : hasNl3 (p ++ m ++ s) = false) : hasNl3 m = false := by
  cases hm : hasNl3 m with
  | false => rfl
  | true =>
    have := hasNl3_append_right p (hasNl3_append_left s hm)
    rw [← List.append_assoc] at this
    rw [this] at h
    exact absurd h (by simp)

theorem noopGuard_eq : ∀ l : List Char, noopGuard l = l := by
  intro l
  induction l using noopGuard.induct with
  | case1 a b c rest hcond ih => simp [noopGuard, hcond, ih]
  | case2 a b c rest hcond ih => simp [noopGuard, hcond, ih]
  | case3 l h =>
    unfold noopGuard
    split
    · exact (h _ _ _ _ rfl).elim
    · rfl

theorem replacePair_head (a b repl d : Char) (t : List Char) :
    (replacePair a b repl (d :: t)).head? = some repl ∨
      (replacePair a b repl (d :: t)).head? = some d := by
  cases t with
  | nil => simp [replacePair]
  | cons e t2 =>
    by_cases hp : d = a ∧ e = b
    · simp [replacePair, hp]
    · simp [replacePair, hp]

theorem replacePair_nopair {a b repl : Char} (hra : repl ≠ a) (hrb : repl ≠ b) :
    ∀ l : List Char, containsPair a b (replacePair a b repl l) = false := by
  intro l
  induction l using replacePair.induct a b repl with
  | case1 => simp [replacePair, containsPair]
  | case2 c => simp [replacePair, containsPair]
  | case3 c d cs hp ih =>
    rw [show replacePair a b repl (c :: d :: cs) = repl :: replacePair a b repl cs from by
      simp [replacePair, hp]]
    rw [containsPair_cons_ne hra]
    exact ih
  | case4 c d cs hp ih =>
    rw [show replacePair a b repl (c :: d :: cs) = c :: replacePair a b repl (d :: cs) from by
      simp [replacePair, hp]]
    rw [containsPair_cons_head]
    · exact ih
    · intro x hx
      rcases replacePair_head a b repl d cs with hh | hh <;> rw [hx] at hh <;>
        injection hh with hh2
      · rintro ⟨-, hxb⟩
        exact hrb (hh2 ▸ hxb)
      · rintro ⟨hca, hxb⟩
        exact hp ⟨hca, hh2 ▸ hxb⟩

theorem replacePair_id {a b repl : Char} :
    ∀ l : List Char, containsPair a b l = false → replacePair a b repl l = l := by
  intro l
  induction l using replacePair.induct a b repl with
  | case1 => simp [replacePair]
  | case2 c => simp [replacePair]
  | case3 c d cs hp ih =>
    intro h
    simp [containsPair, hp] at h
  | case4 c d cs hp ih =>
    intro h
    rw [show replacePair a b repl (c :: d :: cs) = c :: replacePair a b repl (d :: cs) from by
      simp [replacePair, hp]]
    rw [ih (containsPair_tail h)]

theorem replacePair_preserve {a b repl x y : Char} (hx : repl ≠ x) (hy : repl ≠ y) :
    ∀ l : List Char, containsPair x y l = false →
      containsPair x y (replacePair a b repl l) = false := by
  intro l
  induction l using replacePair.induct a b repl with
  | case1 => simp [replacePair, containsPair]
  | case2 c => simp [replacePair, containsPair]
  | case3 c d cs hp ih =>
    intro h
    rw [show replacePair a b repl (c :: d :: cs) = repl :: replacePair a b repl cs from by
      simp [replacePair, hp]]
    rw [containsPair_cons_ne hx]
    exact ih (containsPair_tail (containsPair_tail h))
  | case4 c d cs hp ih =>
    intro h
    rw [show replacePair a b repl (c :: d :: cs) = c :: replacePair a b repl (d :: cs) from by
      simp [replacePair, hp]]
    rw [containsPair_cons_head]
    · exact ih (containsPair_tail h)
    · intro z hz
      rcases replacePair_head a b repl d cs with hh | hh <;> rw [hz] at hh <;>
        injection hh with hh2
      · rintro ⟨-, hzy⟩
        exact hy (hh2 ▸ hzy)
      · rintro ⟨hcx, hzy⟩
        exact (containsPair_cons_false h).1 ⟨hcx, hh2 ▸ hzy⟩

theorem hasNl3_cons3_false {c d e : Char} {t : List Char}
    (h : hasNl3 (c :: d :: e :: t) = false) :
    ¬(c = '\n' ∧ d = '\n' ∧ e = '\n') ∧ hasNl3 (d :: e :: t) = false := by
  by_cases hp : c = '\n' ∧ d = '\n' ∧ e = '\n'
  · simp [hasNl3, hp] at h
  · simp only [hasNl3, hp, if_false] at h
    exact ⟨hp, h⟩

theorem hasNl3_nl_cons {u : Char} (hu : u ≠ '\n') (t : List Char) :
    hasNl3 ('\n' :: u :: t) = hasNl3 (u :: t) := by
  cases t with
  | nil => simp [hasNl3]
  | cons v t2 => simp [hasNl3, hu]

theorem replacePair_nl3 {a b repl : Char} (hr : repl ≠ '\n') :
    ∀ l : List Char, hasNl3 l = false → hasNl3 (replacePair a b repl l) = false := by
  intro l
  induction l using replacePair.induct a b repl with
  | case1 => simp [replacePair, hasNl3]
  | case2 c => simp [replacePair, hasNl3]
  | case3 c d cs hp ih =>
    intro h
    rw [show replacePair a b repl (c :: d :: cs) = repl :: replacePair a b repl cs from by
      simp [replacePair, hp]]
    rw [hasNl3_cons_ne hr]
    exact ih (hasNl3_tail (hasNl3_tail h))
  | case4 c d cs hp ih =>
    intro h
    have hout : hasNl3 (replacePair a b repl (d :: cs)) = false := ih (hasNl3_tail h)
    rw [show replacePair a b repl (c :: d :: cs) = c :: replacePair a b repl (d :: cs) from by
      simp [replacePair, hp]]
    by_cases hc : c = '\n'
    · cases cs with
      | nil => simp [replacePair, hasNl3]
      | cons e cs2 =>
        by_cases hp2 : d = a ∧ e = b
        · rw [show replacePair a b repl (d :: e :: cs2) = repl :: replacePair a b repl cs2 from by
            simp [replacePair, hp2]] at hout ⊢
          cases hY : replacePair a b repl cs2 with
          | nil => simp [hasNl3]
          | cons v t =>
            rw [hY] at hout
            calc hasNl3 (c :: repl :: v :: t) = hasNl3 (repl :: v :: t) := by
                  simp [hasNl3, hr]
              _ = false := hout
        · rw [show replacePair a b repl (d :: e :: cs2) = d :: replacePair a b repl (e :: cs2) from by
            simp [replacePair, hp2]] at hout ⊢
          cases hZ : replacePair a b repl (e :: cs2) with
          | nil => simp [hasNl3]
          | cons v t =>
            rw [hZ] at hout
            have hnt : ¬(c = '\n' ∧ d = '\n' ∧ v = '\n') := by
              rintro ⟨-, hd, hv⟩
              rcases replacePair_head a b repl e cs2 with hh | hh <;> rw [hZ] at hh <;>
                injection hh with hh2
              · exact hr (hh2 ▸ hv)
              · exact (hasNl3_cons3_false h).1 ⟨hc, hd, hh2 ▸ hv⟩
            calc hasNl3 (c :: d :: v :: t) = hasNl3 (d :: v :: t) := by
                  simp [hasNl3, hnt]
              _ = false := hout
    · rw [hasNl3_cons_ne hc]
      exact hout

theorem nlRun_pos {c : Char} (h : c = '\n') (cs : List Char) :
    1 ≤ (nlRun (c :: cs)).1 := by
  cases heq : nlRun cs with
  | mk n r => simp [nlRun, h, heq]

theorem collapseNlGo_eq (cs : List Char) : ∀ n : Nat,
    collapseNlGo n cs = emitNlRun (n + (nlRun cs).1) ++ collapseNlGo 0 (nlRun cs).2 := by
  induction cs with
  | nil => intro n; simp [collapseNlGo, emitNlRun, nlRun]
  | cons c cs2 ih =>
    intro n
    by_cases hc : c = '\n'
    · rw [show collapseNlGo n (c :: cs2) = collapseNlGo (n + 1) cs2 from by
        simp [collapseNlGo, hc]]
      rw [ih (n + 1)]
      cases heq : nlRun cs2 with
      | mk m r =>
        rw [show nlRun (c :: cs2) = (m + 1, r) from by simp [nlRun, hc, heq]]
        simp only [heq]
        have harith : n + 1 + m = n + (m + 1) := by omega
        rw [harith]
    · rw [show collapseNlGo n (c :: cs2) = emitNlRun n ++ c :: collapseNlGo 0 cs2 from by
        simp [collapseNlGo, hc]]
      rw [show nlRun (c :: cs2) = (0, c :: cs2) from by simp [nlRun, hc]]
      rw [show collapseNlGo 0 (c :: cs2) = emitNlRun 0 ++ c :: collapseNlGo 0 cs2 from by
        simp [collapseNlGo, hc]]
      simp [emitNlRun]

theorem collapseNl_eq_nl {c : Char} (h : c = '\n') (cs : List Char) :
    collapseNl (c :: cs) =
      (if 3 ≤ (nlRun (c :: cs)).1 then ['\n', '\n']
       else List.replicate (nlRun (c :: cs)).1 '\n') ++ collapseNl (nlRun (c :: cs)).2 := by
  unfold collapseNl
  rw [collapseNlGo_eq (c :: cs) 0, Nat.zero_add]
  rfl

theorem collapseNl_eq_other {c : Char} (h : ¬c = '\n') (cs : List Char) :
    collapseNl (c :: cs) = c :: collapseNl cs := by
  unfold collapseNl
  rw [show collapseNlGo 0 (c :: cs) = emitNlRun 0 ++ c :: collapseNlGo 0 cs from by
    simp [collapseNlGo, h]]
  simp [emitNlRun]

/-- Induction principle following the maximal-newline-run structure of
`collapseNl`. -/
theorem collapseNl_rec (motive : List Char → Prop) (h1 : motive [])
    (h2 : ∀ cs, motive (nlRun ('\n' :: cs)).2 → motive ('\n' :: cs))
    (h3 : ∀ c cs, ¬c = '\n' → motive cs → motive (c :: cs)) :
    ∀ l, motive l := by
  have H : ∀ (n : Nat) (l : List Char), l.length ≤ n → motive l := by
    intro n
    induction n with
    | zero =>
      intro l hl
      have he : l = [] := List.length_eq_zero.mp (Nat.le_zero.mp hl)
      exact he ▸ h1
    | succ m ih =>
      intro l hl
      cases l with
      | nil => exact h1
      | cons c cs =>
        by_cases hc : c = '\n'
        · subst hc
          apply h2
          apply ih
          have h0 := nlRun_length ('\n' :: cs)
          have hp := nlRun_pos rfl cs
          simp only [List.length_cons] at h0 hl
          omega
        · refine h3 c cs hc (ih cs ?_)
          simp only [List.length_cons] at hl
          omega
  intro l
  exact H l.length l le_rfl

theorem collapseNl_head : ∀ l : List Char, (collapseNl l).head? = l.head? := by
  intro l
  induction l using collapseNl_rec with
  | h1 => simp [collapseNl, collapseNlGo, emitNlRun]
  | h2 cs ih =>
    rw [collapseNl_eq_nl rfl]
    by_cases h3 : 3 ≤ (nlRun ('\n' :: cs)).1
    · simp [h3]
    · have h1 := nlRun_pos rfl cs
      obtain ⟨m, hm⟩ : ∃ m, (nlRun ('\n' :: cs)).1 = m + 1 :=
        ⟨(nlRun ('\n' :: cs)).1 - 1, by omega⟩
      rw [if_neg h3, hm, List.replicate_succ]
      simp
  | h3 c cs h ih =>
    rw [collapseNl_eq_other h]
    simp

theorem hasNl3_of_three (l : List Char) (h : 3 ≤ (nlRun l).1) : hasNl3 l = true := by
  obtain ⟨k, hk⟩ : ∃ k, (nlRun l).1 = k + 3 := ⟨(nlRun l).1 - 3, by omega⟩
  have he := nlRun_eq l
  rw [hk] at he
  rw [← he]
  simp [List.replicate_succ, hasNl3]

theorem hasNl3_rep_append {k : Nat} (hk : k ≤ 2) {t : List Char}
    (ht : ∀ x, t.head? = some x → x ≠ '\n') (h : hasNl3 t = false) :
    hasNl3 (List.replicate k '\n' ++ t) = false := by
  interval_cases k
  · simpa using h
  · cases t with
    | nil => simp [hasNl3]
    | cons u t2 =>
      simp only [List.replicate_succ, List.replicate_zero, List.nil_append,
        List.cons_append]
      rw [hasNl3_nl_cons (ht u rfl)]
      exact h
  · cases t with
    | nil => simp [hasNl3]
    | cons u t2 =>
      have hu := ht u rfl
      simp only [List.replicate_succ, List.replicate_zero, List.nil_append,
        List.cons_append]
      rw [show hasNl3 ('\n' :: '\n' :: u :: t2) = hasNl3 ('\n' :: u :: t2) from by
        simp [hasNl3, hu]]
      rw [hasNl3_nl_cons hu]
      exact h

theorem containsPair_rep_append {a b : Char} (ha : a ≠ '\n') (k : Nat) (t : List Char) :
    containsPair a b (List.replicate k '\n' ++ t) = containsPair a b t := by
  induction k with
  | zero => simp
  | succ m ih =>
    rw [List.replicate_succ, List.cons_append,
      containsPair_cons_ne (fun hh => ha hh.symm), ih]

theorem collapseNl_nonl3 : ∀ l : List Char, hasNl3 (collapseNl l) = false := by
  intro l
  induction l using collapseNl_rec with
  | h1 => simp [collapseNl, collapseNlGo, emitNlRun, hasNl3]
  | h2 cs ih =>
    rw [collapseNl_eq_nl rfl]
    have ht : ∀ x, (collapseNl (nlRun ('\n' :: cs)).2).head? = some x → x ≠ '\n' := by
      intro x hx
      rw [collapseNl_head] at hx
      rcases nlRun_head ('\n' :: cs) with hr | hr
      · rw [hr] at hx
        exact absurd hx (by simp)
      · intro hxe
        rw [hx] at hr
        exact hr (by rw [hxe])
    by_cases h3 : 3 ≤ (nlRun ('\n' :: cs)).1
    · rw [if_pos h3]
      exact hasNl3_rep_append (k := 2) (by omega) ht ih
    · rw [if_neg h3]
      exact hasNl3_rep_append (by omega) ht ih
  | h3 c cs h ih =>
    rw [collapseNl_eq_other h, hasNl3_cons_ne h]
    exact ih

theorem collapseNl_id : ∀ l : List Char, hasNl3 l = false → collapseNl l = l := by
  intro l
  induction l using collapseNl_rec with
  | h1 => intro _; simp [collapseNl, collapseNlGo, emitNlRun]
  | h2 cs ih =>
    intro h
    by_cases h3 : 3 ≤ (nlRun ('\n' :: cs)).1
    · rw [hasNl3_of_three _ h3] at h
      exact absurd h (by simp)
    · rw [collapseNl_eq_nl rfl, if_neg h3]
      have hr : hasNl3 (nlRun ('\n' :: cs)).2 = false := by
        cases hrr : hasNl3 (nlRun ('\n' :: cs)).2 with
        | false => rfl
        | true =>
          have := hasNl3_append_right (List.replicate (nlRun ('\n' :: cs)).1 '\n') hrr
          rw [nlRun_eq ('\n' :: cs)] at this
          rw [this] at h
          exact absurd h (by simp)
      rw [ih hr]
      exact nlRun_eq ('\n' :: cs)
  | h3 c cs h ih =>
    intro hh
    rw [collapseNl_eq_other h, ih (hasNl3_tail hh)]

theorem collapseNl_pair {a b : Char} (ha : a ≠ '\n') :
    ∀ l : List Char, containsPair a b l = false →
      containsPair a b (collapseNl l) = false := by
  intro l
  induction l using collapseNl_rec with
  | h1 => intro _; simp [collapseNl, collapseNlGo, emitNlRun, containsPair]
  | h2 cs ih =>
    intro h
    have hr : containsPair a b (nlRun ('\n' :: cs)).2 = false := by
      rw [← nlRun_eq ('\n' :: cs), containsPair_rep_append ha] at h
      exact h
    rw [collapseNl_eq_nl rfl]
    by_cases h3 : 3 ≤ (nlRun ('\n' :: cs)).1
    · rw [if_pos h3,
        show (['\n', '\n'] : List Char) = List.replicate 2 '\n' from rfl,
        containsPair_rep_append ha]
      exact ih hr
    · rw [if_neg h3, containsPair_rep_append ha]
      exact ih hr
  | h3 c cs h ih =>
    intro hh
    rw [collapseNl_eq_other h]
    cases cs with
    | nil => simp [collapseNl, containsPair]
    | cons d cs2 =>
      have hd : (collapseNl (d :: cs2)).head? = some d := by
        rw [collapseNl_head]
        rfl
      cases hout : collapseNl (d :: cs2) with
      | nil => simp [containsPair]
      | cons v w =>
        rw [hout] at hd
        injection hd with hd2
        subst hd2
        have hfront := containsPair_cons_false hh
        rw [show containsPair a b (c :: v :: w) =
            containsPair a b (v :: w) from by simp [containsPair, hfront.1]]
        rw [← hout]
        exact ih hfront.2

/-! ## Python `str.strip` lemmas -/

theorem dropWhile_head_false (p : Char → Bool) :
    ∀ (l : List Char) (a : Char), (l.dropWhile p).head? = some a → p a = false := by
  intro l
  induction l with
  | nil => intro a h; simp [List.dropWhile] at h
  | cons c t ih =>
    intro a h
    cases hp : p c with
    | true =>
      rw [List.dropWhile_cons_of_pos hp] at h
      exact ih a h
    | false =>
      rw [List.dropWhile_cons_of_neg (by simp [hp])] at h
      injection h with h2
      rw [← h2]
      exact hp

theorem dropWhile_of_head_false (p : Char → Bool) (l : List Char)
    (h : ∀ a, l.head? = some a → p a = false) : l.dropWhile p = l := by
  cases l with
  | nil => rfl
  | cons c t => exact List.dropWhile_cons_of_neg (by simp [h c rfl])

theorem getLast?_dropWhile (p : Char → Bool) :
    ∀ l : List Char, l.dropWhile p ≠ [] → (l.dropWhile p).getLast? = l.getLast? := by
  intro l
  induction l with
  | nil => intro h; simp [List.dropWhile] at h
  | cons c t ih =>
    intro h
    cases hp : p c with
    | true =>
      rw [List.dropWhile_cons_of_pos hp] at h ⊢
      have ht : t ≠ [] := by
        intro he
        rw [he] at h
        simp [List.dropWhile] at h
      obtain ⟨x, t2, he⟩ := List.exists_cons_of_ne_nil ht
      rw [ih h, he, List.getLast?_cons_cons]
    | false =>
      rw [List.dropWhile_cons_of_neg (by simp [hp])]

theorem pyStrip_head_false (l : List Char) :
    ∀ a, (pyStrip l).head? = some a → isStripWs a = false := by
  intro a h
  unfold pyStrip at h
  rw [List.head?_reverse] at h
  have hne : (l.dropWhile isStripWs).reverse.dropWhile isStripWs ≠ [] := by
    intro he
    rw [he] at h
    simp at h
  rw [getLast?_dropWhile _ _ hne, List.getLast?_reverse] at h
  exact dropWhile_head_false isStripWs l a h

theorem pyStrip_getLast_false (l : List Char) :
    ∀ a, (pyStrip l).getLast? = some a → isStripWs a = false := by
  intro a h
  unfold pyStrip at h
  rw [List.getLast?_reverse] at h
  exact dropWhile_head_false isStripWs _ a h

theorem pyStrip_of_stripped (l : List Char)
    (h1 : ∀ a, l.head? = some a → isStripWs a = false)
    (h2 : ∀ a, l.getLast? = some a → isStripWs a = false) : pyStrip l = l := by
  unfold pyStrip
  rw [dropWhile_of_head_false _ _ h1]
  rw [dropWhile_of_head_false _ _ (by
    intro a ha
    rw [List.head?_reverse] at ha
    exact h2 a ha)]
  exact List.reverse_reverse l

theorem pyStrip_idem (l : List Char) : pyStrip (pyStrip l) = pyStrip l :=
  pyStrip_of_stripped _ (pyStrip_head_false l) (pyStrip_getLast_false l)

theorem pyStrip_infix (l : List Char) :
    ∃ p q, l = p ++ pyStrip l ++ q := by
  refine ⟨l.takeWhile isStripWs,
    ((l.dropWhile isStripWs).reverse.takeWhile isStripWs).reverse, ?_⟩
  unfold pyStrip
  conv_lhs => rw [← List.takeWhile_append_dropWhile isStripWs l]
  rw [List.append_assoc]
  congr 1
  conv_lhs => rw [← List.reverse_reverse (l.dropWhile isStripWs)]
  conv_lhs =>
    rw [← List.takeWhile_append_dropWhile isStripWs (l.dropWhile isStripWs).reverse]
  rw [List.reverse_append]

theorem containsPair_pyStrip {a b : Char} {l : List Char}
    (h : containsPair a b l = false) : containsPair a b (pyStrip l) = false := by
  obtain ⟨p, q, he⟩ := pyStrip_infix l
  rw [he] at h
  exact containsPair_infix h

theorem hasNl3_pyStrip {l : List Char}
    (h : hasNl3 l = false) : hasNl3 (pyStrip l) = false := by
  obtain ⟨p, q, he⟩ := pyStrip_infix l
  rw [he] at h
  exact hasNl3_infix h

/-- C5: for accumulated OCR text of length ≤ 10 that is nonempty and entirely
ASCII alphanumeric, post-processing returns success with type "captcha" and
the text uppercased, with no further normalization; every other nonempty text
yields type "text" with the normalization applied. -/
theorem captcha_classification (s : List Char) (hne : s ≠ []) :
    (s.length ≤ 10 → s.all isAlnumAscii = true →
      postprocess s = ⟨true, s.map upperAscii, "captcha"⟩) ∧
    (¬(s.length ≤ 10 ∧ s.all isAlnumAscii = true) →
      postprocess s = ⟨true, normalizeText s, "text"⟩) := by
  constructor
  · intro h1 h2
    unfold postprocess
    rw [if_pos ⟨h1, hne, h2⟩]
  · intro h
    unfold postprocess
    rw [if_neg ?_]
    rintro ⟨hl, -, ha⟩
    exact h ⟨hl, ha⟩

theorem captcha_classification_witness :
    postprocess ['a', 'b', '1'] = ⟨true, ['A', 'B', '1'], "captcha"⟩ ∧
      postprocess ['h', 'i', '!'] = ⟨true, normalizeText ['h', 'i', '!'], "text"⟩ := by
  constructor
  · have h := (captcha_classification ['a', 'b', '1'] (by decide)).1 (by decide) (by decide)
    rw [h]
    decide
  · exact (captcha_classification ['h', 'i', '!'] (by decide)).2 (by decide)

/-- C6: the text-mode normalization (parenthesis substitution, newline-run
collapsing, single-newline no-op guard, trim) is idempotent: applying it
twice equals applying it once. -/
theorem normalizeText_idempotent (s : List Char) :
    normalizeText (normalizeText s) = normalizeText s := by
  have e1 : ∀ l : List Char, noopGuard l = l := noopGuard_eq
  have h1 : containsPair '\\' '（' (normalizeText s) = false := by
    unfold normalizeText
    rw [e1]
    exact containsPair_pyStrip (collapseNl_pair (by decide) _
      (replacePair_preserve (by decide) (by decide) _
        (replacePair_nopair (by decide) (by decide) s)))
  have h2 : containsPair '\\' '）' (normalizeText s) = false := by
    unfold normalizeText
    rw [e1]
    exact containsPair_pyStrip (collapseNl_pair (by decide) _
      (replacePair_nopair (by decide) (by decide) _))
  have h3 : hasNl3 (normalizeText s) = false := by
    unfold normalizeText
    rw [e1]
    exact hasNl3_pyStrip (collapseNl_nonl3 _)
  have h4 : pyStrip (normalizeText s) = normalizeText s := by
    unfold normalizeText
    rw [e1]
    exact pyStrip_idem _
  have key : ∀ w : List Char, containsPair '\\' '（' w = false →
      containsPair '\\' '）' w = false → hasNl3 w = false → pyStrip w = w →
      normalizeText w = w := by
    intro w k1 k2 k3 k4
    unfold normalizeText
    rw [replacePair_id _ k1, replacePair_id _ k2, collapseNl_id _ k3, e1, k4]
  exact key _ h1 h2 h3 h4

/-! ## Streamed completion (`_recognize_image`, src/services/ocr.py lines 488-562) -/

/-- Model of the `OCRError` exception class (lines 43-47): message, optional
upstream status code, optional raw response body. -/
structure OCRErrorM where
  message : String
  status_code : Option Nat
  raw_response : Option String
  deriving Repr, DecidableEq

/-- One parsed choice object of a streamed JSON fragment: the value of
`finish_reason` when present, and `delta.content` when both keys exist. -/
structure StreamChoice where
  finish_reason : Option String
  deltaContent : Option (List Char)
  deriving Repr, DecidableEq

/-- One line of the streamed response body as the loop at lines 527-549 sees
it: blank (skipped), not `data: `-prefixed (skipped), a data line whose JSON
fails to parse (logged, skipped), or a parsed data line with its choices. -/
inductive StreamLine where
  | blank : StreamLine
  | other : StreamLine
  | badJson : StreamLine
  | data : List StreamChoice → StreamLine
  deriving Repr, DecidableEq

/-- The accumulation loop (lines 527-549): threads `full_response` and
`has_content`, and reports whether the loop exited via the finish-signal
break. -/
def streamLoop : List StreamLine → List Char → Bool → List Char × Bool × Bool
  | [], full, hasC => (full, hasC, false)
  | line :: ls, full, hasC =>
    match line with
    | .blank => streamLoop ls full hasC
    | .other => streamLoop ls full hasC
    | .badJson => streamLoop ls full hasC
    | .data [] => streamLoop ls full hasC
    | .data (choice :: _) =>
      if choice.finish_reason = some "stop" then (full, hasC, true)
      else
        match choice.deltaContent with
        | some content => streamLoop ls (full ++ content) true
        | none => streamLoop ls full hasC

/-- The stream phase of `_recognize_image` (lines 488-562 after a 2xx
response): accumulate deltas, then apply the end-of-stream checks at lines
551-562, returning `full_response` or the raised `OCRError`. -/
def processStream (lines : List StreamLine) : Except OCRErrorM (List Char) :=
  match streamLoop lines [] false with
  | (full, hasC, finBreak) =>
    let isFinished := finBreak || hasC
    if !isFinished && !hasC then .error ⟨"识别响应未返回任何内容", none, none⟩
    else if full = [] then .error ⟨"识别结果为空", none, none⟩
    else .ok full

/-- The content deltas the loop consumes before the first finish signal. -/
def deltasBeforeFinish : List StreamLine → List (List Char)
  | [] => []
  | .data (choice :: _) :: ls =>
    if choice.finish_reason = some "stop" then []
    else
      match choice.deltaContent with
      | some content => content :: deltasBeforeFinish ls
      | none => deltasBeforeFinish ls
  | _ :: ls => deltasBeforeFinish ls

/-- Whether a finish signal (first choice with `finish_reason == "stop"`)
occurs in the stream. -/
def hadFinish : List StreamLine → Bool
  | [] => false
  | .data (choice :: _) :: ls =>
    if choice.finish_reason = some "stop" then true else hadFinish ls
  | _ :: ls => hadFinish ls

theorem streamLoop_eq (lines : List StreamLine) : ∀ (acc : List Char) (hasC : Bool),
    streamLoop lines acc hasC =
      (acc ++ (deltasBeforeFinish lines).flatten,
       hasC || !(deltasBeforeFinish lines).isEmpty,
       hadFinish lines) := by
  induction lines with
  | nil => intro acc hasC; simp [streamLoop, deltasBeforeFinish, hadFinish]
  | cons line ls ih =>
    intro acc hasC
    cases line with
    | blank => simpa [streamLoop, deltasBeforeFinish, hadFinish] using ih acc hasC
    | other => simpa [streamLoop, deltasBeforeFinish, hadFinish] using ih acc hasC
    | badJson => simpa [streamLoop, deltasBeforeFinish, hadFinish] using ih acc hasC
    | data choices =>
      cases choices with
      | nil => simpa [streamLoop, deltasBeforeFinish, hadFinish] using ih acc hasC
      | cons choice rest =>
        by_cases hf : choice.finish_reason = some "stop"
        · simp [streamLoop, deltasBeforeFinish, hadFinish, hf]
        · cases hd : choice.deltaContent with
          | some content =>
            simp only [streamLoop, deltasBeforeFinish, hadFinish, hf, if_false, hd]
            rw [ih (acc ++ content) true]
            simp [List.append_assoc]
          | none =>
            simpa [streamLoop, deltasBeforeFinish, hadFinish, hf, hd] using ih acc hasC

/-- C2: the stream succeeds with the concatenation of the received content
deltas exactly when a finish signal arrived or at least one delta was
received, and the concatenation is nonempty; a finish-less and content-less
stream, or an empty accumulated result, raises an OCRError. -/
theorem stream_success_conditions (lines : List StreamLine) :
    (processStream lines = .ok (deltasBeforeFinish lines).flatten ↔
      (hadFinish lines = true ∨ deltasBeforeFinish lines ≠ []) ∧
        (deltasBeforeFinish lines).flatten ≠ []) ∧
    (∀ s, processStream lines = .ok s → s = (deltasBeforeFinish lines).flatten) ∧
    (hadFinish lines = false ∧ deltasBeforeFinish lines = [] →
      ∃ e : OCRErrorM, processStream lines = .error e) ∧
    ((deltasBeforeFinish lines).flatten = [] →
      ∃ e : OCRErrorM, processStream lines = .error e) := by
  have hps : processStream lines =
      (let full := (deltasBeforeFinish lines).flatten
       let hasC := !(deltasBeforeFinish lines).isEmpty
       let finBreak := hadFinish lines
       if !(finBreak || hasC) && !hasC then
         .error ⟨"识别响应未返回任何内容", none, none⟩
       else if full = [] then .error ⟨"识别结果为空", none, none⟩
       else .ok full) := by
    unfold processStream
    rw [streamLoop_eq lines [] false]
    simp
  refine ⟨?_, ?_, ?_, ?_⟩
  · rw [hps]
    by_cases hfin : hadFinish lines = true <;>
      by_cases hde : deltasBeforeFinish lines = [] <;>
      by_cases hj : (deltasBeforeFinish lines).flatten = [] <;>
      simp_all [List.isEmpty_iff]
  · intro s hs
    rw [hps] at hs
    by_cases hfin : hadFinish lines = true <;>
      by_cases hde : deltasBeforeFinish lines = [] <;>
      by_cases hj : (deltasBeforeFinish lines).flatten = [] <;>
      simp [hfin, hde, hj, List.isEmpty_iff] at hs <;> simp [hs]
  · rintro ⟨hfin, hde⟩
    rw [hps]
    simp [hfin, hde, List.isEmpty_iff]
  · intro hj
    rw [hps]
    by_cases hfin : hadFinish lines = true <;>
      by_cases hde : deltasBeforeFinish lines = [] <;>
      simp [hfin, hde, hj, List.isEmpty_iff]

theorem stream_success_conditions_witness :
    processStream [.data [⟨none, some ['a']⟩], .blank, .data [⟨none, some ['b']⟩],
        .data [⟨none, some ['c']⟩]] = .ok ['a', 'b', 'c'] ∧
      ∃ e, processStream [.data [⟨some "stop", none⟩]] = .error e := by
  constructor
  · have h := (stream_success_conditions [.data [⟨none, some ['a']⟩], .blank,
      .data [⟨none, some ['b']⟩], .data [⟨none, some ['c']⟩]]).1.mpr
      (by constructor <;> decide)
    rw [h]
    have he : (deltasBeforeFinish [.data [⟨none, some ['a']⟩], .blank,
        .data [⟨none, some ['b']⟩], .data [⟨none, some ['c']⟩]]).flatten
          = ['a', 'b', 'c'] := by decide
    rw [he]
  · exact (stream_success_conditions [.data [⟨some "stop", none⟩]]).2.2.2 (by decide)

/-! ## Accounts and the configuration store (src/services/config_manager.py) -/

/-- One account record as stored in the configuration; `none` models an
absent dictionary key. -/
structure Account where
  username : Option String
  password : Option String
  cookie : Option String
  token : Option String
  expires_at : Option Int
  enabled : Option Bool
  deriving Repr, DecidableEq

/-- The in-memory configuration: the account list and the `common_cookies`
mapping. -/
structure Store where
  accounts : List Account
  commonCookies : List (String × String)
  deriving Repr, DecidableEq

/-- A parsed cookie dictionary: association list with character-list keys
and values (Python strings). -/
abbrev CookieDict := List (List Char × List Char)

/-- Insert into a dictionary, overwriting an existing key. -/
def dictInsert (d : CookieDict) (k v : List Char) : CookieDict :=
  if d.any (fun p => p.1 = k) then d.map (fun p => if p.1 = k then (k, v) else p)
  else d ++ [(k, v)]

/-- Dictionary lookup. -/
def dictGet (d : CookieDict) (k : List Char) : Option (List Char) :=
  (d.find? (fun p => p.1 = k)).map (fun p => p.2)

/-- Python `s.split(';')`. -/
def splitOnSemi : List Char → List (List Char)
  | [] => [[]]
  | c :: cs =>
    if c = ';' then [] :: splitOnSemi cs
    else
      match splitOnSemi cs with
      | [] => [[c]]
      | h :: t => (c :: h) :: t

/-- `parse_cookie` inside `get_account_by_cookie` (lines 227-236): split on
`;`, strip each item, keep those containing `=`, split each on the first
`=` and strip key and value. -/
def parseCookie (s : List Char) : CookieDict :=
  (splitOnSemi s).foldl (fun d item =>
    let it := pyStrip item
    if it = [] then d
    else if it.contains '=' then
      dictInsert d (pyStrip (it.takeWhile (fun c => ¬c = '=')))
        (pyStrip ((it.dropWhile (fun c => ¬c = '=')).tail))
    else d) []

/-- The key cookie fields compared by `get_account_by_cookie` (line 257). -/
def keyFields : List (List Char) :=
  ["token".data, "SERVERID".data, "SERVERCORSID".data]

/-- The inner field loop (lines 258-263): every key field present in both
parsed cookies must agree. -/
def keyFieldsMatch (accC inC : CookieDict) : Bool :=
  keyFields.all (fun f =>
    match dictGet accC f, dictGet inC f with
    | some av, some iv => av == iv
    | _, _ => true)

/-- The account loop of `get_account_by_cookie` (lines 244-268): skip
disabled accounts and accounts with an empty stored cookie, return the first
remaining account whose key fields match. -/
def findAccountLoop (inC : CookieDict) : List Account → Option Account
  | [] => none
  | a :: rest =>
    if ¬(a.enabled.getD true) then findAccountLoop inC rest
    else if a.cookie.getD "" = "" then findAccountLoop inC rest
    else if keyFieldsMatch (parseCookie (a.cookie.getD "").data) inC then some a
    else findAccountLoop inC rest

/-- `get_account_by_cookie` (lines 209-268). -/
def getAccountByCookie (st : Store) (cookie : String) : Option Account :=
  if cookie = "" then none
  else findAccountLoop (parseCookie cookie.data) st.accounts

/-- The predicate that `get_account_by_cookie` effectively selects by. -/
def cookieCandidate (cookie : String) (a : Account) : Bool :=
  a.enabled.getD true && !(a.cookie.getD "" == "") &&
    keyFieldsMatch (parseCookie (a.cookie.getD "").data) (parseCookie cookie.data)

theorem findAccountLoop_eq_find (inC : CookieDict) :
    ∀ accounts : List Account,
      findAccountLoop inC accounts =
        accounts.find? (fun a =>
          a.enabled.getD true && !(a.cookie.getD "" == "") &&
            keyFieldsMatch (parseCookie (a.cookie.getD "").data) inC) := by
  intro accounts
  induction accounts with
  | nil => rfl
  | cons a rest ih =>
    by_cases he : a.enabled.getD true
    · by_cases hc : a.cookie.getD "" = ""
      · rw [show findAccountLoop inC (a :: rest) = findAccountLoop inC rest from by
          simp [findAccountLoop, he, hc]]
        rw [ih, List.find?_cons_of_neg]
        simp [he, hc]
      · by_cases hm : keyFieldsMatch (parseCookie (a.cookie.getD "").data) inC
        · rw [show findAccountLoop inC (a :: rest) = some a from by
            simp [findAccountLoop, he, hc, hm]]
          rw [List.find?_cons_of_pos]
          simp [he, hc, hm]
        · rw [show findAccountLoop inC (a :: rest) = findAccountLoop inC rest from by
            simp [findAccountLoop, he, hc, hm]]
          rw [ih, List.find?_cons_of_neg]
          simp [he, hc, hm]
    · rw [show findAccountLoop inC (a :: rest) = findAccountLoop inC rest from by
        simp [findAccountLoop, he]]
      rw [ih, List.find?_cons_of_neg]
      simp [he]

theorem find?_congr_pred {α : Type} (p q : α → Bool) :
    ∀ l : List α, (∀ a ∈ l, p a = q a) → l.find? p = l.find? q := by
  intro l
  induction l with
  | nil => intro h; rfl
  | cons x xs ih =>
    intro h
    by_cases hx : p x = true
    · rw [List.find?_cons_of_pos _ hx, List.find?_cons_of_pos _ (by
        rw [← h x (by simp)]; exact hx)]
    · rw [List.find?_cons_of_neg _ (by simpa using hx), List.find?_cons_of_neg _ (by
        rw [← h x (by simp)]; simpa using hx)]
      exact ih (fun a ha => h a (by simp [ha]))

/-- C10: `get_account_by_cookie` returns `none` on an empty cookie, never
returns a disabled account or one with an empty stored cookie, and otherwise
returns exactly the first account whose key fields (token, SERVERID,
SERVERCORSID) agree wherever present in both cookies — so with no shared key
fields, the first enabled account with a nonempty stored cookie matches. -/
theorem getAccountByCookie_spec (st : Store) (cookie : String) :
    (cookie = "" → getAccountByCookie st cookie = none) ∧
    (∀ a, getAccountByCookie st cookie = some a →
      a.enabled.getD true = true ∧ a.cookie.getD "" ≠ "") ∧
    (cookie ≠ "" →
      getAccountByCookie st cookie = st.accounts.find? (cookieCandidate cookie)) ∧
    (cookie ≠ "" →
      (∀ a ∈ st.accounts,
        keyFieldsMatch (parseCookie (a.cookie.getD "").data) (parseCookie cookie.data) = true) →
      getAccountByCookie st cookie =
        st.accounts.find? (fun a => a.enabled.getD true && !(a.cookie.getD "" == ""))) := by
  refine ⟨?_, ?_, ?_, ?_⟩
  · intro h
    simp [getAccountByCookie, h]
  · intro a ha
    unfold getAccountByCookie at ha
    by_cases h : cookie = ""
    · simp [h] at ha
    · rw [if_neg h, findAccountLoop_eq_find] at ha
      have := List.find?_some ha
      simp only [Bool.and_eq_true, Bool.not_eq_true', beq_eq_false_iff_ne] at this
      exact ⟨this.1.1, this.1.2⟩
  · intro h
    unfold getAccountByCookie cookieCandidate
    rw [if_neg h, findAccountLoop_eq_find]
  · intro h hall
    unfold getAccountByCookie
    rw [if_neg h, findAccountLoop_eq_find]
    apply find?_congr_pred
    intro a ha
    simp [hall a ha]

theorem getAccountByCookie_spec_witness :
    getAccountByCookie
        ⟨[⟨some "u1", none, some "SERVERID=z", none, none, some false⟩,
          ⟨some "u2", none, none, none, none, none⟩,
          ⟨some "u3", none, some "SERVERID=x; foo=1", none, none, none⟩],
         []⟩ "bar=2" =
      some ⟨some "u3", none, some "SERVERID=x; foo=1", none, none, none⟩ := by
  have h := (getAccountByCookie_spec
    ⟨[⟨some "u1", none, some "SERVERID=z", none, none, some false⟩,
      ⟨some "u2", none, none, none, none, none⟩,
      ⟨some "u3", none, some "SERVERID=x; foo=1", none, none, none⟩],
     []⟩ "bar=2").2.2.1 (by decide)
  rw [h]
  decide

/-! ## Store mutation operations (src/services/config_manager.py lines 282-368) -/

/-- `get_account_by_username` (lines 170-176). -/
def getAccountByUsername (st : Store) (u : String) : Option Account :=
  st.accounts.find? (fun a => a.username == some u)

/-- The in-place field update of `update_account` on the first account with
the given username (lines 311-318). -/
def updateAccountList (u token cookie : String) (e : Int) (en : Bool) :
    List Account → List Account
  | [] => []
  | a :: rest =>
    if a.username == some u then
      { a with token := some token, cookie := some cookie,
               expires_at := some e, enabled := some en } :: rest
    else a :: updateAccountList u token cookie e en rest

/-- `update_account` (lines 304-334): update the existing account, else
append a new record (note: without a password field). -/
def updateAccount (st : Store) (u token cookie : String) (e : Int) (en : Bool) : Store :=
  if st.accounts.any (fun a => a.username == some u) then
    ⟨updateAccountList u token cookie e en st.accounts, st.commonCookies⟩
  else
    ⟨st.accounts ++ [⟨some u, none, some cookie, some token, some e, some en⟩],
     st.commonCookies⟩

/-- Set the `enabled` flag of the first account with the given username. -/
def setEnabledList (u : String) (en : Bool) : List Account → List Account
  | [] => []
  | a :: rest =>
    if a.username == some u then { a with enabled := some en } :: rest
    else a :: setEnabledList u en rest

/-- `disable_account` (lines 336-351): a no-op when the username is absent. -/
def disableAccount (st : Store) (u : String) : Store :=
  ⟨setEnabledList u false st.accounts, st.commonCookies⟩

/-- `enable_account` (lines 353-368). -/
def enableAccount (st : Store) (u : String) : Store :=
  ⟨setEnabledList u true st.accounts, st.commonCookies⟩

/-- The effective `enabled` flag of the named account, `none` if absent. -/
def accountEnabled (st : Store) (u : String) : Option Bool :=
  (getAccountByUsername st u).map (fun a => a.enabled.getD true)

/-- `_merge_cookies` / `get_cookie_with_common_fields` (lines 184-280). -/
def mergeCookies (st : Store) (accountCookie : String) : String :=
  if st.commonCookies = [] then accountCookie
  else
    let commonStr :=
      String.intercalate "; " (st.commonCookies.map (fun p => p.1 ++ "=" ++ p.2))
    if accountCookie ≠ "" then accountCookie ++ "; " ++ commonStr else commonStr

theorem accountEnabled_setEnabled (u : String) (en : Bool) :
    ∀ accounts : List Account,
      (accounts.find? (fun a => a.username == some u)).isSome →
      ((setEnabledList u en accounts).find? (fun a => a.username == some u)).map
          (fun a => a.enabled.getD true) = some en := by
  intro accounts
  induction accounts with
  | nil => intro h; simp [List.find?] at h
  | cons a rest ih =>
    intro h
    by_cases hu : a.username == some u
    · simp only [setEnabledList, if_pos hu]
      rw [List.find?_cons_of_pos _ (by simpa using hu)]
      simp
    · simp only [setEnabledList, if_neg hu]
      rw [List.find?_cons_of_neg _ (by simpa using hu)]
      rw [List.find?_cons_of_neg _ (by simpa using hu)] at h
      exact ih h

theorem accountEnabled_disable (st : Store) (u : String)
    (h : (getAccountByUsername st u).isSome) :
    accountEnabled (disableAccount st u) u = some false := by
  unfold accountEnabled getAccountByUsername disableAccount
  exact accountEnabled_setEnabled u false st.accounts h

theorem accountEnabled_enable (st : Store) (u : String)
    (h : (getAccountByUsername st u).isSome) :
    accountEnabled (enableAccount st u) u = some true := by
  unfold accountEnabled getAccountByUsername enableAccount
  exact accountEnabled_setEnabled u true st.accounts h

theorem updateAccountList_find (u token cookie : String) (e : Int) (en : Bool) :
    ∀ accounts : List Account,
      accounts.any (fun a => a.username == some u) = true →
      ((updateAccountList u token cookie e en accounts).find?
          (fun a => a.username == some u)).map (fun a => a.enabled.getD true) = some en := by
  intro accounts
  induction accounts with
  | nil => intro h; simp at h
  | cons a rest ih =>
    intro h
    by_cases hu : a.username == some u
    · simp only [updateAccountList, if_pos hu]
      rw [List.find?_cons_of_pos _ (by simpa using hu)]
      simp
    · simp only [updateAccountList, if_neg hu]
      rw [List.find?_cons_of_neg _ (by simpa using hu)]
      simp only [List.any_cons, Bool.or_eq_true] at h
      rcases h with hc | hrest
      · exact absurd hc (by simpa using hu)
      · exact ih hrest

theorem accountEnabled_update (st : Store) (u token cookie : String) (e : Int)
    (en : Bool) : accountEnabled (updateAccount st u token cookie e en) u = some en := by
  unfold accountEnabled getAccountByUsername updateAccount
  by_cases hany : st.accounts.any (fun a => a.username == some u) = true
  · rw [if_pos hany]
    exact updateAccountList_find u token cookie e en st.accounts hany
  · rw [if_neg hany]
    simp only
    rw [List.find?_append]
    have hnone : st.accounts.find? (fun a => a.username == some u) = none := by
      rw [List.find?_eq_none]
      intro x hx hpx
      exact hany (List.any_of_mem hx hpx)
    rw [hnone]
    simp [List.find?]

/-! ## Sign-in (src/services/auth.py lines 39-184) -/

/-- Model of the `AuthError` exception (auth.py lines 33-37).  The rendered
response bodies attached as `raw_response` in the source are not modelled
further than their presence. -/
structure AuthErrorM where
  message : String
  status_code : Option Nat
  raw_response : Option String
  deriving Repr, DecidableEq

/-- Outcome of the initial home-page request (lines 84-86): a network
failure (`httpx.RequestError`), a non-2xx status (`raise_for_status` raising
`httpx.HTTPStatusError`, which `except httpx.RequestError` does not catch),
or success carrying the `set-cookie` response header. -/
inductive HomeOutcome where
  | netErr : HomeOutcome
  | statusErr : HomeOutcome
  | ok : String → HomeOutcome
  deriving Repr, DecidableEq

/-- Parsed body of the sign-in response (lines 132-154). -/
structure SigninBody where
  token : Option String
  expires_at : Option Int
  deriving Repr, DecidableEq

/-- Outcome of the sign-in POST (lines 107-114): a network failure, or a
response with status code, `set-cookie` header, and a body that may fail
JSON parsing (`none`). -/
inductive PostOutcome where
  | netErr : PostOutcome
  | resp : Nat → String → Option SigninBody → PostOutcome
  deriving Repr, DecidableEq

/-- The external effects `signin` and the token helpers depend on:
the two HTTP outcomes, the unverified JWT decode (claims with an optional
`exp`, or a decode failure), the clock, whether `update_account` raises, and
the SHA256 hex digest function of `hash_password`. -/
structure SigninEnv where
  home : HomeOutcome
  post : PostOutcome
  jwtDecode : String → Except Unit (Option Int)
  now : Int
  updateFails : Bool
  hashFn : String → String

/-- Result of a `signin` call: the returned triple, a raised `AuthError`, or
an unclassified exception re-raised by the bare `raise` at line 184. -/
inductive SigninResult where
  | ok : String → String → Int → SigninResult
  | authErr : AuthErrorM → SigninResult
  | rawExc : String → SigninResult
  deriving Repr, DecidableEq

/-- Expiry derivation (auth.py lines 154-164): use the response field when
truthy, else decode the token's `exp` claim, else fall back to now+24h. -/
def deriveExpiresAt (env : SigninEnv) (tok : String) (bodyExp : Option Int) : Int :=
  match bodyExp with
  | some e =>
    if e = 0 then
      match env.jwtDecode tok with
      | .ok oexp => oexp.getD (env.now + 86400)
      | .error _ => env.now + 86400
    else e
  | none =>
    match env.jwtDecode tok with
    | .ok oexp => oexp.getD (env.now + 86400)
    | .error _ => env.now + 86400

/-- `signin` (auth.py lines 39-184), returning the updated store and the
outcome.  `AuthError`s raised inside the `try` block are caught by the final
`except Exception` handler, which disables the account again and re-raises
them unchanged, so they surface as `authErr` with one extra (idempotent)
disable. -/
def signin (env : SigninEnv) (st : Store) (username password : String)
    (is_password_hashed : Bool) : Store × SigninResult :=
  let _pw := if ¬is_password_hashed then env.hashFn password else password
  match env.home with
  | .netErr =>
    (disableAccount st username, .authErr ⟨"请求失败", none, none⟩)
  | .statusErr =>
    (disableAccount st username, .rawExc "httpx.HTTPStatusError")
  | .ok initialCookies =>
    match env.post with
    | .netErr =>
      (disableAccount st username, .authErr ⟨"请求失败", none, none⟩)
    | .resp status loginCookies body =>
      if status ≠ 200 then
        (disableAccount st username,
         .authErr ⟨"登录失败: HTTP " ++ toString status, some status, some "error detail"⟩)
      else
        match body with
        | none =>
          (disableAccount st username, .authErr ⟨"解析响应失败", none, some "doc"⟩)
        | some data =>
          match data.token with
          | none =>
            (disableAccount st username, .authErr ⟨"响应中没有token", none, some "body"⟩)
          | some tok =>
            if tok = "" then
              (disableAccount st username, .authErr ⟨"响应中没有token", none, some "body"⟩)
            else
              let allCookies0 :=
                if loginCookies ≠ "" then initialCookies ++ "; " ++ loginCookies
                else initialCookies
              let allCookies := mergeCookies st allCookies0
              if allCookies = "" then
                (disableAccount st username,
                 .authErr ⟨"未获取到cookie", none, some "body"⟩)
              else
                let expiresAt := deriveExpiresAt env tok data.expires_at
                if env.updateFails then
                  (disableAccount st username, .rawExc "update_account raised")
                else
                  (updateAccount st username tok allCookies expiresAt true,
                   .ok tok allCookies expiresAt)

/-- Every execution of `signin` either re-raises an unclassified exception
(only from the home-page status error or a failing `update_account`), raises
an `AuthError`, or succeeds; every failure first disables the account. -/
theorem signin_cases (env : SigninEnv) (st : Store) (u p : String) (hashed : Bool) :
    (∃ m, signin env st u p hashed = (disableAccount st u, .rawExc m) ∧
      (env.home = .statusErr ∨ env.updateFails = true)) ∨
    (∃ a, signin env st u p hashed = (disableAccount st u, .authErr a)) ∨
    (∃ t c e, signin env st u p hashed = (updateAccount st u t c e true, .ok t c e)) := by
  cases hh : env.home with
  | netErr =>
    right; left
    exact ⟨⟨"请求失败", none, none⟩, by simp [signin, hh]⟩
  | statusErr =>
    left
    exact ⟨"httpx.HTTPStatusError", by simp [signin, hh], Or.inl rfl⟩
  | ok ic =>
    cases hp : env.post with
    | netErr =>
      right; left
      exact ⟨⟨"请求失败", none, none⟩, by simp [signin, hh, hp]⟩
    | resp status lc body =>
      by_cases hs : status = 200
      · cases body with
        | none =>
          right; left
          exact ⟨⟨"解析响应失败", none, some "doc"⟩, by simp [signin, hh, hp, hs]⟩
        | some data =>
          cases htk : data.token with
          | none =>
            right; left
            exact ⟨⟨"响应中没有token", none, some "body"⟩,
              by simp [signin, hh, hp, hs, htk]⟩
          | some tok =>
            by_cases hte : tok = ""
            · right; left
              exact ⟨⟨"响应中没有token", none, some "body"⟩,
                by simp [signin, hh, hp, hs, htk, hte]⟩
            · by_cases hac : mergeCookies st
                (if lc ≠ "" then ic ++ "; " ++ lc else ic) = ""
              · right; left
                refine ⟨⟨"未获取到cookie", none, some "body"⟩, ?_⟩
                simp only [signin, hh, hp, hs, htk]
                rw [if_neg (by simp [hs]), if_neg hte, if_pos hac]
              · by_cases hu : env.updateFails
                · left
                  refine ⟨"update_account raised", ?_, Or.inr hu⟩
                  simp only [signin, hh, hp, hs, htk]
                  rw [if_neg (by simp [hs]), if_neg hte, if_neg hac, if_pos hu]
                · right; right
                  refine ⟨tok, mergeCookies st (if lc ≠ "" then ic ++ "; " ++ lc else ic),
                    deriveExpiresAt env tok data.expires_at, ?_⟩
                  simp only [signin, hh, hp, hs, htk]
                  rw [if_neg (by simp [hs]), if_neg hte, if_neg hac,
                    if_neg hu]
      · right; left
        refine ⟨⟨"登录失败: HTTP " ++ toString status, some status, some "error detail"⟩, ?_⟩
        simp only [signin, hh, hp]
        rw [if_pos hs]

/-- Environment for the C4 counterexample: the home-page request fails
`raise_for_status`, an unexpected (non-`RequestError`) exception. -/
def envC4 : SigninEnv :=
  ⟨.statusErr, .netErr, fun _ => .error (), 0, false, fun hp => hp⟩

/-- A store holding the single account the C4 scenarios sign in to. -/
def storeC4 : Store :=
  ⟨[⟨some "u", some "pw", some "token=abc", none, none, some true⟩], []⟩

/-- C4 counterexample: when the initial home request returns a non-2xx
status, `signin` disables the account but the bare `raise` at auth.py line
184 re-raises `httpx.HTTPStatusError` itself — the raised error is not an
AuthError, contradicting the claim as stated. -/
theorem signin_unclassified_counterexample :
    (signin envC4 storeC4 "u" "p" true).2 = .rawExc "httpx.HTTPStatusError" ∧
    (∀ e, (signin envC4 storeC4 "u" "p" true).2 ≠ .authErr e) ∧
    accountEnabled (signin envC4 storeC4 "u" "p" true).1 "u" = some false := by
  refine ⟨rfl, ?_, rfl⟩
  intro e h
  rw [show (signin envC4 storeC4 "u" "p" true).2 =
    SigninResult.rawExc "httpx.HTTPStatusError" from rfl] at h
  exact SigninResult.noConfusion h

/-- C4 (amended): every failing execution of `signin` disables the named
account (present in the store) before the call raises; non-2xx responses,
missing token, missing cookie, network and parse errors raise a classified
AuthError, while other unexpected errors (an HTTPStatusError from the home
request, or a failure inside the account update) are re-raised unclassified;
the account is re-enabled only by an explicit enable call or a successful
sign-in, whose update stores enabled=true. -/
theorem signin_disables_on_failure (env : SigninEnv) (st : Store)
    (u p : String) (hashed : Bool)
    (hpresent : (getAccountByUsername st u).isSome = true) :
    ((∀ t c e, (signin env st u p hashed).2 ≠ .ok t c e) →
      accountEnabled (signin env st u p hashed).1 u = some false) ∧
    (∀ m, (signin env st u p hashed).2 = .rawExc m →
      env.home = .statusErr ∨ env.updateFails = true) ∧
    ((∀ t c e, (signin env st u p hashed).2 ≠ .ok t c e) →
      env.home ≠ .statusErr → env.updateFails = false →
      ∃ a, (signin env st u p hashed).2 = .authErr a) ∧
    (∀ t c e, (signin env st u p hashed).2 = .ok t c e →
      accountEnabled (signin env st u p hashed).1 u = some true) ∧
    accountEnabled (enableAccount st u) u = some true ∧
    accountEnabled (disableAccount st u) u = some false ∧
    (∀ t c e, accountEnabled (updateAccount st u t c e true) u = some true) := by
  rcases signin_cases env st u p hashed with ⟨m, hm, hsrc⟩ | ⟨a, ha⟩ | ⟨t, c, e, hok⟩
  · refine ⟨?_, ?_, ?_, ?_, accountEnabled_enable st u hpresent,
      accountEnabled_disable st u hpresent, fun t c e => accountEnabled_update ..⟩
    · intro hf
      rw [hm]
      exact accountEnabled_disable st u hpresent
    · intro m2 hm2
      exact hsrc
    · intro hf hhome hupdate
      rcases hsrc with h1 | h2
      · exact absurd h1 hhome
      · rw [hupdate] at h2
        exact absurd h2 (by simp)
    · intro t c e hok
      rw [hm] at hok
      simp at hok
  · refine ⟨?_, ?_, ?_, ?_, accountEnabled_enable st u hpresent,
      accountEnabled_disable st u hpresent, fun t c e => accountEnabled_update ..⟩
    · intro hf
      rw [ha]
      exact accountEnabled_disable st u hpresent
    · intro m hm
      rw [ha] at hm
      simp at hm
    · intro hf hhome hupdate
      exact ⟨a, by rw [ha]⟩
    · intro t c e hok
      rw [ha] at hok
      simp at hok
  · refine ⟨?_, ?_, ?_, ?_, accountEnabled_enable st u hpresent,
      accountEnabled_disable st u hpresent, fun t c e => accountEnabled_update ..⟩
    · intro hf
      exact absurd (by rw [hok]) (hf t c e)
    · intro m hm
      rw [hok] at hm
      simp at hm
    · intro hf
      exact absurd (by rw [hok]) (hf t c e)
    · intro t2 c2 e2 hok2
      rw [hok]
      exact accountEnabled_update ..

/-- Environment for the C4 witness: the sign-in POST returns HTTP 401. -/
def envC4W : SigninEnv :=
  ⟨.ok "ic=1", .resp 401 "sc=1" none, fun _ => .error (), 0, false, fun hp => hp⟩

theorem signin_disables_on_failure_witness :
    accountEnabled (signin envC4W storeC4 "u" "p" true).1 "u" = some false := by
  apply (signin_disables_on_failure envC4W storeC4 "u" "p" true (by decide)).1
  intro t c e hok
  rw [show (signin envC4W storeC4 "u" "p" true).2 =
    SigninResult.authErr ⟨"登录失败: HTTP 401", some 401, some "error detail"⟩ from rfl] at hok
  exact SigninResult.noConfusion hok

/-! ## Token supplier (`_get_valid_token`, src/services/ocr.py lines 129-174,
and `check_token_validity`, src/services/auth.py lines 201-218) -/

/-- `check_token_validity`: decode the token without verification and test
`exp > time.time()`; any decode failure yields `false` (missing `exp`
defaults to 0). -/
def checkTokenValidity (env : SigninEnv) (token : String) : Bool :=
  match env.jwtDecode token with
  | .error _ => false
  | .ok oexp => oexp.getD 0 > env.now

/-- The re-login path of `_get_valid_token` (ocr.py lines 157-169): require
username and password, sign in, persist the refreshed credentials, return
the new token.  The third component records whether `signin` was invoked. -/
def refreshPath (env : SigninEnv) (st : Store) (account : Account) :
    Store × Except OCRErrorM String × Bool :=
  match account.username, account.password with
  | some u, some p =>
    if u = "" ∨ p = "" then
      (st, .error ⟨"账号信息不完整，无法重新登录", none, none⟩, false)
    else
      match signin env st u p true with
      | (st1, .ok t c e) => (updateAccount st1 u t c e true, .ok t, true)
      | (st1, .authErr a) =>
        (st1, .error ⟨"获取新token失败: " ++ a.message, none, none⟩, true)
      | (st1, .rawExc m) =>
        (st1, .error ⟨"获取新token失败: " ++ m, none, none⟩, true)
  | _, _ => (st, .error ⟨"账号信息不完整，无法重新登录", none, none⟩, false)

/-- `_get_valid_token` (ocr.py lines 129-174): resolve the account by
cookie, return the cached token when it is truthy and passes the validity
check, otherwise re-login.  The third component records whether `signin`
was invoked. -/
def getValidToken (env : SigninEnv) (st : Store) (cookie : String) :
    Store × Except OCRErrorM String × Bool :=
  match getAccountByCookie st cookie with
  | none => (st, .error ⟨"无法找到对应的账号信息", none, none⟩, false)
  | some account =>
    match account.token with
    | some t =>
      if t ≠ "" ∧ checkTokenValidity env t = true then (st, .ok t, false)
      else refreshPath env st account
    | none => refreshPath env st account

/-- C1: when the cookie resolves to an account whose cached token decodes to
an expiry strictly in the future, `_get_valid_token` returns that cached
token, leaves the store unchanged, and never invokes `signin`. -/
theorem cached_token_no_signin (env : SigninEnv) (st : Store) (cookie : String)
    (a : Account) (t : String) (e : Int)
    (ha : getAccountByCookie st cookie = some a)
    (ht : a.token = some t) (hne : t ≠ "")
    (hd : env.jwtDecode t = .ok (some e)) (hfut : e > env.now) :
    getValidToken env st cookie = (st, .ok t, false) := by
  have hc : checkTokenValidity env t = true := by
    unfold checkTokenValidity
    rw [hd]
    simpa using hfut
  unfold getValidToken
  simp only [ha, ht]
  rw [if_pos ⟨hne, hc⟩]

/-- Environment for the C1 witness: a decoder that reports expiry 100 with
the clock at 0. -/
def envC1 : SigninEnv :=
  ⟨.netErr, .netErr, fun _ => .ok (some 100), 0, false, fun hp => hp⟩

/-- Store for the C1 witness. -/
def storeC1 : Store :=
  ⟨[⟨some "u", some "pw", some "token=abc; SERVERID=s1", some "tok1", some 100,
     some true⟩], []⟩

theorem cached_token_no_signin_witness :
    getValidToken envC1 storeC1 "token=abc" = (storeC1, .ok "tok1", false) := by
  apply cached_token_no_signin envC1 storeC1 "token=abc"
    ⟨some "u", some "pw", some "token=abc; SERVERID=s1", some "tok1", some 100,
     some true⟩ "tok1" 100
  · decide
  · rfl
  · decide
  · rfl
  · decide

/-! ## Natural sort key (`natural_sort_key`, src/routers/pdf_ocr.py lines 22-25) -/

/-- One element of the Python sort key list: an `int` from a digit run, or a
lowercased string piece. -/
inductive KeyElem where
  | num : Nat → KeyElem
  | str : List Char → KeyElem
  deriving Repr, DecidableEq

/-- Maximal runs of characters of equal digit-ness. -/
def digitGroups : List Char → List (List Char)
  | [] => []
  | c :: cs =>
    match digitGroups cs with
    | (d :: g) :: rest =>
      if c.isDigit = d.isDigit then (c :: d :: g) :: rest
      else [c] :: (d :: g) :: rest
    | gs => [c] :: gs

/-- Whether a group is a digit run. -/
def isDigitGroup (g : List Char) : Bool :=
  match g with
  | c :: _ => c.isDigit
  | [] => false

/-- `re.split('([0-9]+)', s)`: the maximal digit/non-digit runs, with an
empty piece added before a leading digit run and after a trailing one, so
pieces at even positions are the (possibly empty) non-digit runs and the
captured digit runs sit between them. -/
def splitDigitRuns (l : List Char) : List (List Char) :=
  let gs := digitGroups l
  let gs1 := if gs.head?.all (fun g => ¬isDigitGroup g) then gs else [] :: gs
  let gs2 := if gs1.getLast?.all (fun g => ¬isDigitGroup g) then gs1 else gs1 ++ [[]]
  if gs2 = [] then [[]] else gs2

/-- ASCII lowercase map for `text.lower()`. -/
def pyLower (c : Char) : Char :=
  if 'A' ≤ c ∧ c ≤ 'Z' then Char.ofNat (c.toNat + 32) else c

/-- `int(text)` on a digit run. -/
def digitsToNat (l : List Char) : Nat :=
  l.foldl (fun n c => n * 10 + (c.toNat - '0'.toNat)) 0

/-- `natural_sort_key` (pdf_ocr.py lines 22-25): map each piece to an `int`
when `text.isdigit()` (nonempty, all digits), else to its lowercase form. -/
def natural_sort_key (s : String) : List KeyElem :=
  (splitDigitRuns s.data).map (fun piece =>
    if piece ≠ [] ∧ piece.all Char.isDigit then .num (digitsToNat piece)
    else .str (piece.map pyLower))

/-- Python string `<`: lexicographic on code points. -/
def strLt : List Char → List Char → Bool
  | [], [] => false
  | [], _ :: _ => true
  | _ :: _, [] => false
  | c :: cs, d :: ds => if c < d then true else if d < c then false else strLt cs ds

/-- Python `<` on key elements: ints compare numerically, strings
lexicographically, and a mixed comparison raises `TypeError`. -/
def keyElemLt : KeyElem → KeyElem → Except Unit Bool
  | .num a, .num b => .ok (decide (a < b))
  | .str a, .str b => .ok (strLt a b)
  | _, _ => .error ()

/-- Python list `<`: walk both lists, skip equal elements, decide at the
first difference, a strict prefix is smaller. -/
def keyLt : List KeyElem → List KeyElem → Except Unit Bool
  | [], [] => .ok false
  | [], _ :: _ => .ok true
  | _ :: _, [] => .ok false
  | x :: xs, y :: ys => if x = y then keyLt xs ys else keyElemLt x y

/-- Two keys that differ only in numeric elements: same length, numbers
aligned with numbers, equal strings aligned elsewhere. -/
def sameShape : List KeyElem → List KeyElem → Bool
  | [], [] => true
  | .num _ :: xs, .num _ :: ys => sameShape xs ys
  | .str a :: xs, .str b :: ys => a = b && sameShape xs ys
  | _, _ => false

/-- The numeric elements of a key, in order. -/
def numsOf : List KeyElem → List Nat
  | [] => []
  | .num n :: xs => n :: numsOf xs
  | .str _ :: xs => numsOf xs

/-- Lexicographic order on the numeric substring values. -/
def natListLt : List Nat → List Nat → Bool
  | [], [] => false
  | [], _ :: _ => true
  | _ :: _, [] => false
  | a :: as2, b :: bs => if a = b then natListLt as2 bs else decide (a < b)

/-- C8: for keys that differ only in embedded numeric substrings, the
natural sort key order is exactly the lexicographic order of the numeric
values compared as integers; in particular img1 < img2 < img10 under the
key while plain string order would put "img10" before "img2". -/
theorem natural_sort_key_spec :
    (∀ k1 k2 : List KeyElem, sameShape k1 k2 = true →
      keyLt k1 k2 = .ok (natListLt (numsOf k1) (numsOf k2))) ∧
    keyLt (natural_sort_key "img1") (natural_sort_key "img2") = .ok true ∧
    keyLt (natural_sort_key "img2") (natural_sort_key "img10") = .ok true ∧
    keyLt (natural_sort_key "img1") (natural_sort_key "img10") = .ok true ∧
    strLt "img10".data "img2".data = true := by
  refine ⟨?_, ?_, ?_, ?_, by decide⟩
  · intro k1
    induction k1 with
    | nil =>
      intro k2 h
      cases k2 with
      | nil => rfl
      | cons y ys => simp [sameShape] at h
    | cons x xs ih =>
      intro k2 h
      cases k2 with
      | nil => cases x <;> simp [sameShape] at h
      | cons y ys =>
        cases x with
        | num a =>
          cases y with
          | num b =>
            simp only [sameShape] at h
            by_cases hab : a = b
            · subst hab
              rw [show keyLt (KeyElem.num a :: xs) (KeyElem.num a :: ys) =
                  keyLt xs ys from by simp [keyLt]]
              rw [ih ys h]
              simp [numsOf, natListLt]
            · rw [show keyLt (KeyElem.num a :: xs) (KeyElem.num b :: ys) =
                  keyElemLt (KeyElem.num a) (KeyElem.num b) from by
                simp [keyLt, hab]]
              simp [keyElemLt, numsOf, natListLt, hab]
          | str b => simp [sameShape] at h
        | str a =>
          cases y with
          | num b => simp [sameShape] at h
          | str b =>
            simp only [sameShape, Bool.and_eq_true, decide_eq_true_eq] at h
            rcases h with ⟨hab, h⟩
            subst hab
            rw [show keyLt (KeyElem.str a :: xs) (KeyElem.str a :: ys) =
                keyLt xs ys from by simp [keyLt]]
            rw [ih ys h]
            simp [numsOf]
  · rfl
  · rfl
  · rfl

theorem natural_sort_key_spec_witness :
    keyLt (natural_sort_key "page2") (natural_sort_key "page10") = .ok true := by
  have h := natural_sort_key_spec.1 (natural_sort_key "page2")
    (natural_sort_key "page10") (by decide)
  rw [h]
  have h2 : natListLt (numsOf (natural_sort_key "page2"))
      (numsOf (natural_sort_key "page10")) = true := by decide
  rw [h2]

/-! ## Atomic configuration save (`_save_config_to_file`,
src/services/config_manager.py lines 131-163) -/

/-- The two files the save touches. -/
structure FsState where
  canonical : Option String
  temp : Option String
  deriving Repr, DecidableEq

/-- Whether the save returned normally or re-raised. -/
inductive SaveResult where
  | ok : SaveResult
  | err : SaveResult
  deriving Repr, DecidableEq

/-- `_save_config_to_file`: serialize the snapshot into `<file>.tmp`, then
`os.replace` it over the canonical file; on any failure remove the temp file
if it exists and re-raise.  `writeOk` models the serialization+write step
(a failed write may leave partial temp data, which the cleanup removes) and
`replaceOk` the atomic rename. -/
def saveConfigToFile (fs : FsState) (content : String)
    (writeOk replaceOk : Bool) : FsState × SaveResult :=
  if writeOk = false then
    (⟨fs.canonical, none⟩, .err)
  else if replaceOk = false then
    (⟨fs.canonical, none⟩, .err)
  else
    (⟨some content, none⟩, .ok)

/-- C9: a successful save atomically installs the full snapshot; a failing
save propagates the error, removes the temp file, and leaves the canonical
file exactly as it was — never partially written. -/
theorem save_config_atomic (fs : FsState) (content : String)
    (writeOk replaceOk : Bool) :
    ((saveConfigToFile fs content writeOk replaceOk).2 = .ok →
      (saveConfigToFile fs content writeOk replaceOk).1 = ⟨some content, none⟩) ∧
    ((saveConfigToFile fs content writeOk replaceOk).2 = .err →
      (saveConfigToFile fs content writeOk replaceOk).1 = ⟨fs.canonical, none⟩) ∧
    ((saveConfigToFile fs content writeOk replaceOk).2 = .err ↔
      (writeOk = false ∨ replaceOk = false)) := by
  cases writeOk <;> cases replaceOk <;> simp [saveConfigToFile]

theorem save_config_atomic_witness :
    (saveConfigToFile ⟨some "old", none⟩ "new" true false).1 =
      ⟨some "old", none⟩ := by
  exact (save_config_atomic ⟨some "old", none⟩ "new" true false).2.1 rfl

/-! ## Retry wrapper (`retry_with_token_refresh`, src/services/ocr.py
lines 70-127) -/

/-- Outcome of one invocation of the wrapped operation: a return value, an
`httpx.HTTPError` with the attached response's status and body when a
response exists, or any other exception. -/
inductive AttemptOutcome where
  | ok : String → AttemptOutcome
  | httpErr : Option Nat → Option String → AttemptOutcome
  | exc : String → AttemptOutcome
  deriving Repr, DecidableEq

/-- The externals of the retry loop: the outcome of each attempt, whether
each `_get_valid_token` refresh succeeds, and whether a `token=` cookie was
found among the call's arguments (lines 78-91). -/
structure RetryEnv where
  op : Nat → AttemptOutcome
  refreshOk : Nat → Bool
  hasCookie : Bool

/-- What the wrapper returns or raises: a value, a classified `OCRError`,
the raw last exception (the `raise last_exception` at line 127), or the
unreachable empty-loop case. -/
inductive RetryResult where
  | ok : String → RetryResult
  | ocr : OCRErrorM → RetryResult
  | raw : AttemptOutcome → RetryResult
  | invalid : RetryResult
  deriving Repr, DecidableEq

/-- Trace events: attempt invocations, refresh attempts, and backoff sleeps
(the slept duration in seconds; `delay * (attempt + 1)` with `delay = 1.0`). -/
inductive REv where
  | att : Nat → AttemptOutcome → REv
  | refreshed : Nat → Bool → REv
  | slept : Nat → REv
  deriving Repr, DecidableEq

/-- `handle_api_error` (lines 52-68): an `OCRError` carrying the upstream
status and body when a response is attached. -/
def classifyHttp (name : String) (st : Option Nat) (body : Option String) : OCRErrorM :=
  ⟨name ++ "失败", st, body⟩

/-- The generic-exception classification (line 125): an `OCRError` with no
status. -/
def classifyExc (name : String) : OCRErrorM :=
  ⟨name ++ "失败", none, none⟩

/-- The retry loop (lines 93-127) with `max_retries = 3`, `delay = 1.0`:
`i` is the current attempt index, `fuel` the remaining iterations after
this one (`attempt < max_retries - 1` ⟺ `1 ≤ fuel`), `last` the recorded
`last_exception`.  Exiting the loop re-raises `last_exception` raw. -/
def retryGo (env : RetryEnv) (name : String) :
    Nat → Nat → Option AttemptOutcome → RetryResult × List REv
  | _, 0, some out => (.raw out, [])
  | _, 0, none => (.invalid, [])
  | i, fuel + 1, _ =>
    match env.op i with
    | .ok v => (.ok v, [.att i (.ok v)])
    | .httpErr st body =>
      if st = some 401 ∧ env.hasCookie then
        if env.refreshOk i then
          let r := retryGo env name (i + 1) fuel (some (.httpErr st body))
          (r.1, .att i (.httpErr st body) :: .refreshed i true :: r.2)
        else
          if 1 ≤ fuel then
            let r := retryGo env name (i + 1) fuel (some (.httpErr st body))
            (r.1, .att i (.httpErr st body) :: .refreshed i false ::
              .slept (i + 1) :: r.2)
          else
            (.ocr (classifyHttp name st body),
             [.att i (.httpErr st body), .refreshed i false])
      else
        if 1 ≤ fuel then
          let r := retryGo env name (i + 1) fuel (some (.httpErr st body))
          (r.1, .att i (.httpErr st body) :: .slept (i + 1) :: r.2)
        else
          (.ocr (classifyHttp name st body), [.att i (.httpErr st body)])
    | .exc m =>
      if 1 ≤ fuel then
        let r := retryGo env name (i + 1) fuel (some (.exc m))
        (r.1, .att i (.exc m) :: .slept (i + 1) :: r.2)
      else
        (.ocr (classifyExc name), [.att i (.exc m)])

/-- `retry_with_token_refresh`: run the loop from attempt 0 with 3
iterations and no recorded exception. -/
def retryWithTokenRefresh (env : RetryEnv) (name : String) : RetryResult × List REv :=
  retryGo env name 0 3 none

/-- Number of operation invocations in a trace. -/
def countAtt : List REv → Nat
  | [] => 0
  | .att _ _ :: tr => countAtt tr + 1
  | _ :: tr => countAtt tr

/-- Well-formedness of the sleep events in a trace: each sleep follows the
attempt with index `j` it backs off from, lasts exactly `j + 1` seconds, and
never follows a successful 401 token refresh.  The state tracks the last
attempt index and whether a successful refresh happened since. -/
def sleepPat : List REv → Option (Nat × Bool) → Bool
  | [], _ => true
  | .att i _ :: tr, _ => sleepPat tr (some (i, false))
  | .refreshed _ ok :: tr, some (j, _) => sleepPat tr (some (j, ok))
  | .refreshed _ _ :: tr, none => false
  | .slept d :: tr, some (j, refSucceeded) =>
    !refSucceeded && (d == j + 1) && sleepPat tr none
  | .slept _ :: tr, none => false

theorem retryGo_att_le (env : RetryEnv) (name : String) :
    ∀ (fuel i : Nat) (last : Option AttemptOutcome),
      countAtt (retryGo env name i fuel last).2 ≤ fuel := by
  intro fuel
  induction fuel with
  | zero =>
    intro i last
    cases last <;> simp [retryGo, countAtt]
  | succ f ih =>
    intro i last
    cases hop : env.op i with
    | ok v => simp [retryGo, hop, countAtt]
    | httpErr st body =>
      by_cases h401 : st = some 401 ∧ env.hasCookie
      · by_cases hr : env.refreshOk i
        · have hrec := ih (i + 1) (some (.httpErr st body))
          simp only [retryGo, hop, if_pos h401, if_pos hr, countAtt]
          omega
        · by_cases hf : 1 ≤ f
          · have hrec := ih (i + 1) (some (.httpErr st body))
            simp only [retryGo, hop, if_pos h401, if_neg hr, if_pos hf, countAtt]
            omega
          · simp only [retryGo, hop, if_pos h401, if_neg hr, if_neg hf, countAtt]
            omega
      · by_cases hf : 1 ≤ f
        · have hrec := ih (i + 1) (some (.httpErr st body))
          simp only [retryGo, hop, if_neg h401, if_pos hf, countAtt]
          omega
        · simp only [retryGo, hop, if_neg h401, if_neg hf, countAtt]
          omega
    | exc m =>
      by_cases hf : 1 ≤ f
      · have hrec := ih (i + 1) (some (.exc m))
        simp only [retryGo, hop, if_pos hf, countAtt]
        omega
      · simp only [retryGo, hop, if_neg hf, countAtt]
        omega

theorem retryGo_sleepPat (env : RetryEnv) (name : String) :
    ∀ (fuel i : Nat) (last : Option AttemptOutcome) (s : Option (Nat × Bool)),
      sleepPat (retryGo env name i fuel last).2 s = true := by
  intro fuel
  induction fuel with
  | zero =>
    intro i last s
    cases last <;> simp [retryGo, sleepPat]
  | succ f ih =>
    intro i last s
    cases hop : env.op i with
    | ok v => simp [retryGo, hop, sleepPat]
    | httpErr st body =>
      by_cases h401 : st = some 401 ∧ env.hasCookie
      · by_cases hr : env.refreshOk i
        · have hrec := ih (i + 1) (some (.httpErr st body)) (some (i, true))
          simp only [retryGo, hop, if_pos h401, if_pos hr, sleepPat]
          exact hrec
        · by_cases hf : 1 ≤ f
          · have hrec := ih (i + 1) (some (.httpErr st body)) none
            simp only [retryGo, hop, if_pos h401, if_neg hr, if_pos hf, sleepPat]
            simp [hrec]
          · simp only [retryGo, hop, if_pos h401, if_neg hr, if_neg hf, sleepPat]
      · by_cases hf : 1 ≤ f
        · have hrec := ih (i + 1) (some (.httpErr st body)) none
          simp only [retryGo, hop, if_neg h401, if_pos hf, sleepPat]
          simp [hrec]
        · simp only [retryGo, hop, if_neg h401, if_neg hf, sleepPat]
    | exc m =>
      by_cases hf : 1 ≤ f
      · have hrec := ih (i + 1) (some (.exc m)) none
        simp only [retryGo, hop, if_pos hf, sleepPat]
        simp [hrec]
      · simp only [retryGo, hop, if_neg hf, sleepPat]

theorem retryGo_raw_char (env : RetryEnv) (name : String) :
    ∀ (fuel i : Nat) (last : Option AttemptOutcome) (out : AttemptOutcome),
      (retryGo env name i (fuel + 1) last).1 = .raw out →
      ∃ b, out = .httpErr (some 401) b ∧ env.hasCookie = true ∧
        env.refreshOk (i + fuel) = true ∧ env.op (i + fuel) = out := by
  intro fuel
  induction fuel with
  | zero =>
    intro i last out h
    cases hop : env.op i with
    | ok v => simp [retryGo, hop] at h
    | httpErr st body =>
      by_cases h401 : st = some 401 ∧ env.hasCookie
      · by_cases hr : env.refreshOk i
        · simp only [retryGo, hop, if_pos h401, if_pos hr] at h
          injection h with h2
          exact ⟨body, by rw [← h2, h401.1], h401.2, by simpa using hr,
            by rw [Nat.add_zero, hop, ← h2]⟩
        · simp only [retryGo, hop, if_pos h401, if_neg hr,
            show ¬(1 ≤ 0) from by omega, if_neg, if_false] at h
          simp at h
      · by_cases hf : (1 : Nat) ≤ 0
        · omega
        · simp only [retryGo, hop, if_neg h401, if_neg hf] at h
          simp at h
    | exc m =>
      simp only [retryGo, hop, show ¬(1 ≤ 0) from by omega, if_neg, if_false] at h
      simp at h
  | succ f ih =>
    intro i last out h
    have harith : i + (f + 1) = (i + 1) + f := by omega
    cases hop : env.op i with
    | ok v => simp [retryGo, hop] at h
    | httpErr st body =>
      by_cases h401 : st = some 401 ∧ env.hasCookie
      · by_cases hr : env.refreshOk i
        · simp only [retryGo, hop, if_pos h401, if_pos hr] at h
          rw [harith]
          exact ih (i + 1) (some (.httpErr st body)) out h
        · simp only [retryGo, hop, if_pos h401, if_neg hr,
            if_pos (show 1 ≤ f + 1 from by omega)] at h
          rw [harith]
          exact ih (i + 1) (some (.httpErr st body)) out h
      · simp only [retryGo, hop, if_neg h401,
          if_pos (show 1 ≤ f + 1 from by omega)] at h
        rw [harith]
        exact ih (i + 1) (some (.httpErr st body)) out h
    | exc m =>
      simp only [retryGo, hop, if_pos (show 1 ≤ f + 1 from by omega)] at h
      rw [harith]
      exact ih (i + 1) (some (.exc m)) out h

theorem retryGo_ocr_char (env : RetryEnv) (name : String) :
    ∀ (fuel i : Nat) (last : Option AttemptOutcome) (e : OCRErrorM),
      (retryGo env name i fuel last).1 = .ocr e →
      ∃ j, i ≤ j ∧ j < i + fuel ∧
        ((∃ st body, env.op j = .httpErr st body ∧ e = classifyHttp name st body) ∨
         (∃ m, env.op j = .exc m ∧ e = classifyExc name)) := by
  intro fuel
  induction fuel with
  | zero =>
    intro i last e h
    cases last <;> simp [retryGo] at h
  | succ f ih =>
    intro i last e h
    cases hop : env.op i with
    | ok v => simp [retryGo, hop] at h
    | httpErr st body =>
      by_cases h401 : st = some 401 ∧ env.hasCookie
      · by_cases hr : env.refreshOk i
        · simp only [retryGo, hop, if_pos h401, if_pos hr] at h
          obtain ⟨j, hj1, hj2, hj3⟩ := ih (i + 1) (some (.httpErr st body)) e h
          exact ⟨j, by omega, by omega, hj3⟩
        · by_cases hf : 1 ≤ f
          · simp only [retryGo, hop, if_pos h401, if_neg hr, if_pos hf] at h
            obtain ⟨j, hj1, hj2, hj3⟩ := ih (i + 1) (some (.httpErr st body)) e h
            exact ⟨j, by omega, by omega, hj3⟩
          · simp only [retryGo, hop, if_pos h401, if_neg hr, if_neg hf] at h
            injection h with h2
            exact ⟨i, le_rfl, by omega, Or.inl ⟨st, body, hop, h2.symm⟩⟩
      · by_cases hf : 1 ≤ f
        · simp only [retryGo, hop, if_neg h401, if_pos hf] at h
          obtain ⟨j, hj1, hj2, hj3⟩ := ih (i + 1) (some (.httpErr st body)) e h
          exact ⟨j, by omega, by omega, hj3⟩
        · simp only [retryGo, hop, if_neg h401, if_neg hf] at h
          injection h with h2
          exact ⟨i, le_rfl, by omega, Or.inl ⟨st, body, hop, h2.symm⟩⟩
    | exc m =>
      by_cases hf : 1 ≤ f
      · simp only [retryGo, hop, if_pos hf] at h
        obtain ⟨j, hj1, hj2, hj3⟩ := ih (i + 1) (some (.exc m)) e h
        exact ⟨j, by omega, by omega, hj3⟩
      · simp only [retryGo, hop, if_neg hf] at h
        injection h with h2
        exact ⟨i, le_rfl, by omega, Or.inr ⟨m, hop, h2.symm⟩⟩

theorem retryGo_ok_char (env : RetryEnv) (name : String) :
    ∀ (fuel i : Nat) (last : Option AttemptOutcome) (v : String),
      (retryGo env name i fuel last).1 = .ok v →
      ∃ j, i ≤ j ∧ j < i + fuel ∧ env.op j = .ok v := by
  intro fuel
  induction fuel with
  | zero =>
    intro i last v h
    cases last <;> simp [retryGo] at h
  | succ f ih =>
    intro i last v h
    cases hop : env.op i with
    | ok w =>
      simp only [retryGo, hop] at h
      injection h with h2
      exact ⟨i, le_rfl, by omega, by rw [hop, h2]⟩
    | httpErr st body =>
      by_cases h401 : st = some 401 ∧ env.hasCookie
      · by_cases hr : env.refreshOk i
        · simp only [retryGo, hop, if_pos h401, if_pos hr] at h
          obtain ⟨j, hj1, hj2, hj3⟩ := ih (i + 1) (some (.httpErr st body)) v h
          exact ⟨j, by omega, by omega, hj3⟩
        · by_cases hf : 1 ≤ f
          · simp only [retryGo, hop, if_pos h401, if_neg hr, if_pos hf] at h
            obtain ⟨j, hj1, hj2, hj3⟩ := ih (i + 1) (some (.httpErr st body)) v h
            exact ⟨j, by omega, by omega, hj3⟩
          · simp only [retryGo, hop, if_pos h401, if_neg hr, if_neg hf] at h
            simp at h
      · by_cases hf : 1 ≤ f
        · simp only [retryGo, hop, if_neg h401, if_pos hf] at h
          obtain ⟨j, hj1, hj2, hj3⟩ := ih (i + 1) (some (.httpErr st body)) v h
          exact ⟨j, by omega, by omega, hj3⟩
        · simp only [retryGo, hop, if_neg h401, if_neg hf] at h
          simp at h
    | exc m =>
      by_cases hf : 1 ≤ f
      · simp only [retryGo, hop, if_pos hf] at h
        obtain ⟨j, hj1, hj2, hj3⟩ := ih (i + 1) (some (.exc m)) v h
        exact ⟨j, by omega, by omega, hj3⟩
      · simp only [retryGo, hop, if_neg hf] at h
        simp at h

theorem retryGo_not_invalid (env : RetryEnv) (name : String) :
    ∀ (fuel i : Nat) (last : Option AttemptOutcome),
      (1 ≤ fuel ∨ last.isSome = true) →
      (retryGo env name i fuel last).1 ≠ .invalid := by
  intro fuel
  induction fuel with
  | zero =>
    intro i last hside
    cases last with
    | none => simp at hside
    | some out => simp [retryGo]
  | succ f ih =>
    intro i last hside
    cases hop : env.op i with
    | ok v => simp [retryGo, hop]
    | httpErr st body =>
      by_cases h401 : st = some 401 ∧ env.hasCookie
      · by_cases hr : env.refreshOk i
        · simp only [retryGo, hop, if_pos h401, if_pos hr]
          exact ih (i + 1) (some (.httpErr st body)) (Or.inr rfl)
        · by_cases hf : 1 ≤ f
          · simp only [retryGo, hop, if_pos h401, if_neg hr, if_pos hf]
            exact ih (i + 1) (some (.httpErr st body)) (Or.inr rfl)
          · simp [retryGo, hop, h401, hr, hf]
      · by_cases hf : 1 ≤ f
        · simp only [retryGo, hop, if_neg h401, if_pos hf]
          exact ih (i + 1) (some (.httpErr st body)) (Or.inr rfl)
        · simp [retryGo, hop, h401, hf]
    | exc m =>
      by_cases hf : 1 ≤ f
      · simp only [retryGo, hop, if_pos hf]
        exact ih (i + 1) (some (.exc m)) (Or.inr rfl)
      · simp [retryGo, hop, hf]

/-- Environment for the C3 counterexample: every attempt fails with HTTP
401 (with a body), a cookie is identifiable, every token refresh succeeds. -/
def envC3 : RetryEnv :=
  ⟨fun _ => .httpErr (some 401) (some "401 body"), fun _ => true, true⟩

/-- C3 counterexample: with three 401 failures and successful refreshes the
loop completes via `continue` and line 127 re-raises the raw
`httpx.HTTPError` itself — not an OCRError — contradicting the claim's
"never a raw transport exception". -/
theorem retry_raw_exception_counterexample :
    (retryWithTokenRefresh envC3 "图片识别").1 =
      .raw (.httpErr (some 401) (some "401 body")) ∧
    (∀ e, (retryWithTokenRefresh envC3 "图片识别").1 ≠ .ocr e) := by
  refine ⟨rfl, ?_⟩
  intro e h
  rw [show (retryWithTokenRefresh envC3 "图片识别").1 =
    RetryResult.raw (.httpErr (some 401) (some "401 body")) from rfl] at h
  exact RetryResult.noConfusion h

/-- C3 (amended): the wrapper makes at most 3 attempts; every backoff sleep
follows the attempt it backs off from, lasts `baseDelay * attemptNumber`
seconds, and never follows a successful 401 token refresh; a returned value
comes from some attempt; and an exhausted run raises the last failure
classified as an OCRError carrying the upstream status and body when
available — except when the final attempt failed with HTTP 401, a cookie
was identifiable and the token refresh succeeded, in which case the raw
last exception is re-raised. -/
theorem retry_with_token_refresh_spec (env : RetryEnv) (name : String) :
    countAtt (retryWithTokenRefresh env name).2 ≤ 3 ∧
    sleepPat (retryWithTokenRefresh env name).2 none = true ∧
    (∀ out, (retryWithTokenRefresh env name).1 = .raw out →
      ∃ b, out = .httpErr (some 401) b ∧ env.hasCookie = true ∧
        env.refreshOk 2 = true ∧ env.op 2 = out) ∧
    (∀ e, (retryWithTokenRefresh env name).1 = .ocr e →
      ∃ j, j ≤ 2 ∧
        ((∃ st body, env.op j = .httpErr st body ∧ e = classifyHttp name st body) ∨
         (∃ m, env.op j = .exc m ∧ e = classifyExc name))) ∧
    (∀ v, (retryWithTokenRefresh env name).1 = .ok v →
      ∃ j, j ≤ 2 ∧ env.op j = .ok v) ∧
    (retryWithTokenRefresh env name).1 ≠ .invalid := by
  refine ⟨retryGo_att_le env name 3 0 none,
    retryGo_sleepPat env name 3 0 none none, ?_, ?_, ?_,
    retryGo_not_invalid env name 3 0 none (Or.inl (by omega))⟩
  · intro out h
    have hr := retryGo_raw_char env name 2 0 none out h
    simpa using hr
  · intro e h
    obtain ⟨j, hj1, hj2, hj3⟩ := retryGo_ocr_char env name 3 0 none e h
    exact ⟨j, by omega, hj3⟩
  · intro v h
    obtain ⟨j, hj1, hj2, hj3⟩ := retryGo_ok_char env name 3 0 none v h
    exact ⟨j, by omega, hj3⟩

/-- Environment for the C3 witness: every attempt raises a non-httpx
exception. -/
def envC3W : RetryEnv :=
  ⟨fun _ => .exc "boom", fun _ => false, false⟩

theorem retry_with_token_refresh_spec_witness :
    ∃ j, j ≤ 2 ∧
      ((∃ st body, envC3W.op j = .httpErr st body ∧
          classifyExc "文件上传" = classifyHttp "文件上传" st body) ∨
       (∃ m, envC3W.op j = .exc m ∧
          classifyExc "文件上传" = classifyExc "文件上传")) := by
  apply (retry_with_token_refresh_spec envC3W "文件上传").2.2.2.1
  rfl

/-! ## Batch image processing (`process_images`, src/routers/pdf_ocr.py
lines 84-189) -/

/-- Python keyword-argument binding: a call binds iff every keyword names a
declared parameter; otherwise the call raises
`TypeError: ... got an unexpected keyword argument`. -/
def kwargsBind (params kwargs : List String) : Bool :=
  kwargs.all (fun k => params.contains k)

/-- Declared parameters of `upload_image_info` (ocr.py line 227). -/
def upload_image_info_params : List String := ["image_bytes", "filename", "cookie"]

/-- Declared parameters of `recognize_image` (ocr.py line 611). -/
def recognize_image_params : List String := ["cookie", "file_info", "prompt"]

/-- Keyword arguments of the `upload_image_info` call inside
`process_single_image` (pdf_ocr.py lines 126-131). -/
def batch_upload_kwargs : List String := ["image_bytes", "filename", "token", "cookie"]

/-- Keyword arguments of the `recognize_image` call (pdf_ocr.py
lines 139-144). -/
def batch_recognize_kwargs : List String := ["token", "cookie", "file_info"]

/-- One entry of `task_data["results"]` (timestamp not modelled). -/
structure ResultRecord where
  filename : String
  content_file : List Char
  deriving Repr, DecidableEq

/-- One entry of `task_data["errors"]` (timestamp not modelled). -/
structure ErrorRecord where
  filename : String
  error : String
  deriving Repr, DecidableEq

/-- The persisted task record. -/
structure TaskData where
  status : String
  total_images : Nat
  processed_images : Nat
  results : List ResultRecord
  errors : List ErrorRecord
  deriving Repr, DecidableEq

/-- What the remote upload and recognition would return for each image if
their calls bound; `error` is a failing pipeline (e.g. an upload response
missing the id field, surfaced as OCRError). -/
structure BatchEnv where
  uploadOutcome : String → Except String Unit
  recognizeOutcome : String → Except String Unit

def digitChar (n : Nat) : Char := Char.ofNat ('0'.toNat + n)

def natToDigitsAux : Nat → Nat → List Char
  | 0, _ => []
  | fuel + 1, n => if n = 0 then [] else natToDigitsAux fuel (n / 10) ++ [digitChar (n % 10)]

def natToDigits (n : Nat) : List Char :=
  if n = 0 then ['0'] else natToDigitsAux n n

/-- `f"{index:04d}"`: the decimal digits left-padded with zeros to width 4. -/
def pad4 (n : Nat) : List Char :=
  List.replicate (4 - (natToDigits n).length) '0' ++ natToDigits n

/-- `process_single_image` (pdf_ocr.py lines 116-171): the upload call and
the recognition call each pass a `token=` keyword that the callee does not
declare, so Python raises TypeError at the call; any exception is caught and
appended to the error list.  On a successful recognition the result record
is appended and the processed count incremented (lines 146-162). -/
def process_single_image (env : BatchEnv) (task : TaskData) (imgName : String)
    (index : Nat) : TaskData :=
  if kwargsBind upload_image_info_params batch_upload_kwargs = false then
    { task with errors := task.errors ++
        [⟨imgName, "upload_image_info() got an unexpected keyword argument 'token'"⟩] }
  else
    match env.uploadOutcome imgName with
    | .error msg => { task with errors := task.errors ++ [⟨imgName, msg⟩] }
    | .ok _ =>
      if kwargsBind recognize_image_params batch_recognize_kwargs = false then
        { task with errors := task.errors ++
            [⟨imgName, "recognize_image() got an unexpected keyword argument 'token'"⟩] }
      else
        match env.recognizeOutcome imgName with
        | .error msg => { task with errors := task.errors ++ [⟨imgName, msg⟩] }
        | .ok _ =>
          { task with
              results := task.results ++ [⟨imgName, pad4 index ++ ".txt".data⟩],
              processed_images := task.processed_images + 1 }

/-- `process_images` (pdf_ocr.py lines 84-189) on the naturally sorted image
list: an empty list raises ValueError and marks the task failed; otherwise
every image is attempted and the task ends `completed`. -/
def process_images (env : BatchEnv) (images : List String) : TaskData :=
  if images = [] then ⟨"failed", 0, 0, [], []⟩
  else
    let init : TaskData := ⟨"processing", images.length, 0, [], []⟩
    let final := images.enum.foldl
      (fun t p => process_single_image env t p.2 p.1) init
    { final with status := "completed" }

/-- Environment in which every remote upload and recognition succeeds. -/
def envBatchOk : BatchEnv := ⟨fun _ => .ok (), fun _ => .ok ()⟩

/-- C7, evaluated at the failing input: both per-image calls pass a `token=`
keyword their callee does not accept, so even with every remote operation
succeeding each image raises TypeError and is recorded as an error;
processing continues across images, the task completes with
`processed_images = 0`, no result records, and one error per image —
contradicting the claimed all-success outcome. -/
theorem batch_token_kwarg_bug :
    kwargsBind upload_image_info_params batch_upload_kwargs = false ∧
    kwargsBind recognize_image_params batch_recognize_kwargs = false ∧
    process_images envBatchOk ["img1.png"] =
      ⟨"completed", 1, 0, [],
       [⟨"img1.png", "upload_image_info() got an unexpected keyword argument 'token'"⟩]⟩ ∧
    process_images envBatchOk ["img1.png", "img2.png"] =
      ⟨"completed", 2, 0, [],
       [⟨"img1.png", "upload_image_info() got an unexpected keyword argument 'token'"⟩,
        ⟨"img2.png", "upload_image_info() got an unexpected keyword argument 'token'"⟩]⟩ := by
  exact ⟨rfl, rfl, rfl, rfl⟩

end QwenOcr
